import Mathlib

/-!
# Clock Signal reflection core: Reflection/Struct.cpp

A shallow embedding of the typed accessors (get, set, fuzzy_set) and of the
BSON serialiser of Reflection/Struct.cpp, followed by theorems about them.

Conventions of the embedding.

* A C++ std::string is a Lean String, one Char per C++ char.
* A stored scalar is its object representation read as a little-endian
  natural number (Value.bits); a stored std::string or char pointer is
  Value.text; a null char pointer is Value.bits 0.
* The C++ type int is int32_t.
* A read past the end of a field (undefined behaviour in C++) yields
  Value.bits 0.
-/

namespace CLK

/-! ## Type identities -/

/-- The types a field element can have and get can be instantiated with:
bool, the eight fixed-width integers of ForAllInts, the two floats of
ForAllFloats, char pointer, std::string, and any other complete type
(an enum or a class), told apart by a number. -/
inductive TypeId where
  | bool
  | uint8 | int8 | uint16 | int16 | uint32 | int32 | uint64 | int64
  | float | double
  | cstring
  | string
  | other (id : Nat)
  deriving DecidableEq, Repr

/-- What type_of returns through a std::type_info pointer: typeid of an
element type, or typeid(Reflection::Struct) for a nested struct. -/
inductive type_info where
  | of (t : TypeId)
  | Struct
  deriving DecidableEq, Repr

/-- The C++ expression typeid(T). -/
abbrev typeid (T : TypeId) : type_info := type_info.of T

/-- The eight types of the ForAllInts list, in its order. -/
def ForAllInts : List TypeId :=
  [.uint8, .int8, .uint16, .int16, .uint32, .int32, .uint64, .int64]

/-- The two types of the ForAllFloats list. -/
def ForAllFloats : List TypeId := [.float, .double]

/-- Width of a data pointer, sizeof(char *), on the 64-bit hosts the emulator
targets. -/
def sizeof_pointer : Nat := 8

/-- The compile-time sizeof(T) for the arithmetic types and char pointer. The
getters consult it only under std::is_integral or std::is_floating_point, so
the value given to std::string and to other types (0) is never used. -/
def sizeof : TypeId → Nat
  | .bool => 1
  | .uint8 => 1 | .int8 => 1
  | .uint16 => 2 | .int16 => 2
  | .uint32 => 4 | .int32 => 4
  | .uint64 => 8 | .int64 => 8
  | .float => 4 | .double => 8
  | .cstring => sizeof_pointer
  | .string => 0
  | .other _ => 0

/-- The trait std::is_integral: true for bool and for the integer types. -/
def std_is_integral : TypeId → Bool
  | .bool => true
  | .uint8 => true | .int8 => true | .uint16 => true | .int16 => true
  | .uint32 => true | .int32 => true | .uint64 => true | .int64 => true
  | _ => false

/-- The trait std::is_floating_point. -/
def std_is_floating_point : TypeId → Bool
  | .float => true | .double => true
  | _ => false

/-- The trait std::is_signed: true for signed arithmetic types. -/
def std_is_signed : TypeId → Bool
  | .int8 => true | .int16 => true | .int32 => true | .int64 => true
  | .float => true | .double => true
  | _ => false

namespace TypeInfo

/-- TypeInfo::is_integral (Struct.cpp lines 34-40). -/
def is_integral (type : type_info) : Bool :=
  type == typeid .uint8 || type == typeid .int8 ||
  type == typeid .uint16 || type == typeid .int16 ||
  type == typeid .uint32 || type == typeid .int32 ||
  type == typeid .uint64 || type == typeid .int64

/-- TypeInfo::is_floating_point (lines 42-44). -/
def is_floating_point (type : type_info) : Bool :=
  type == typeid .float || type == typeid .double

/-- TypeInfo::is_signed (lines 46-54). -/
def is_signed (type : type_info) : Bool :=
  type == typeid .int8 ||
  type == typeid .int16 ||
  type == typeid .int32 ||
  type == typeid .int64 ||
  type == typeid .double ||
  type == typeid .float

/-- TypeInfo::size (lines 56-65): TestType over ForAllInts, ForAllFloats and
char pointer, in that order; 0 for anything else. -/
def size (type : type_info) : Nat :=
  match (ForAllInts ++ ForAllFloats ++ [TypeId.cstring]).find? (fun x => type == typeid x) with
  | some x => sizeof x
  | none => 0

end TypeInfo

/-! ## Machine integers -/

/-- The mathematical integer held by an object of integer type T whose
representation is raw: two-s complement for the signed types. -/
def of_bits (T : TypeId) (raw : Nat) : Int :=
  if std_is_signed T && decide (2 ^ (8 * sizeof T - 1) ≤ raw)
  then (raw : Int) - 2 ^ (8 * sizeof T)
  else (raw : Int)

/-- The representation of the integer v converted to integer type T
(reduction modulo 2 to the width); conversion to bool tests for non-zero. -/
def to_bits (T : TypeId) (v : Int) : Nat :=
  if T = .bool then (if v = 0 then 0 else 1)
  else (v % 2 ^ (8 * sizeof T)).toNat

/-- The C++ expression static_cast<T>(x) for x of integer type S with
representation raw. -/
def static_cast (T S : TypeId) (raw : Nat) : Nat :=
  to_bits T (of_bits S raw)

/-! ## Stored values and structs -/

/-- The content of one element of a field. -/
inductive Value where
  | bits (raw : Nat)
  | text (s : String)
  deriving DecidableEq, Repr

/-- The representation stored in an element; a string object has none that
the model tracks. -/
def Value.raw : Value → Nat
  | .bits n => n
  | .text _ => 0

/-- The value-initialised object T{}: all bits zero, the empty string for
std::string. -/
def zero_value : TypeId → Value
  | .string => .text ""
  | _ => .bits 0

/-- A host object as seen through the Struct contract: its fields in
declaration order. A field is either an array of elements of one element
type, or a nested struct (type identity typeid(Reflection::Struct)). -/
inductive Struct where
  | nil
  | field (name : String) (type : TypeId) (elems : List Value)
      (serialisable : Bool) (rest : Struct)
  | nested (name : String) (count : Nat) (child : Struct)
      (serialisable : Bool) (rest : Struct)
  deriving DecidableEq, Repr

namespace Struct

/-- Modelled from the spec: Struct::all_keys of the absent Struct.hpp, the
complete ordered name list (declaration order). -/
def all_keys : Struct → List String
  | nil => []
  | field name _ _ _ rest => name :: all_keys rest
  | nested name _ _ _ rest => name :: all_keys rest

/-- Modelled from the spec: Struct::type_of of the absent Struct.hpp, the
type identity of the named field, a null pointer (none) when the struct has
no such field. -/
def type_of : Struct → String → Option type_info
  | nil, _ => none
  | field name type _ _ rest, key =>
    if name = key then some (typeid type) else type_of rest key
  | nested name _ _ _ rest, key =>
    if name = key then some type_info.Struct else type_of rest key

/-- Modelled from the spec: Struct::count_of of the absent Struct.hpp, the
element arity of the named field. -/
def count_of : Struct → String → Nat
  | nil, _ => 0
  | field name _ elems _ rest, key =>
    if name = key then elems.length else count_of rest key
  | nested name count _ _ rest, key =>
    if name = key then count else count_of rest key

/-- Modelled from the spec: Struct::get of the absent Struct.hpp, the address
of the named field's contiguous element storage, here the elements
themselves. The storage of a nested struct is not element storage. -/
def get : Struct → String → List Value
  | nil, _ => []
  | field name _ elems _ rest, key =>
    if name = key then elems else get rest key
  | nested name _ _ _ rest, key =>
    if name = key then [] else get rest key

/-- Modelled from the spec: Struct::should_serialise of the absent Struct.hpp,
whether the field is included in serialised output. -/
def should_serialise : Struct → String → Bool
  | nil, _ => false
  | field name _ _ ser rest, key =>
    if name = key then ser else should_serialise rest key
  | nested name _ _ ser rest, key =>
    if name = key then ser else should_serialise rest key

/-- Modelled from the spec: Struct::set(name, pointer) of the absent
Struct.hpp, raw per-element write access: the object the pointer addresses is
copied over the first element of the named field. Nothing happens when there
is no such field. -/
def set : Struct → String → Value → Struct
  | nil, _, _ => nil
  | field name type elems ser rest, key, v =>
    if name = key then field name type (elems.set 0 v) ser rest
    else field name type elems ser (set rest key v)
  | nested name count child ser rest, key, v =>
    if name = key then nested name count child ser rest
    else nested name count child ser (set rest key v)

end Struct

/-! ## The enum registry -/

/-- One registered enum: the name of the type and its ordered symbolic
names, the index being the ordinal. -/
structure EnumEntry where
  name : String
  members : List String
  deriving Repr

/-- The process-wide, read-only context of the reflection core: the enum
registry, keyed by the identity of the enum type, and the hardware
conversion of a float representation to a double representation. -/
structure Env where
  enums : List (Nat × EnumEntry)
  float_to_double : Nat → Nat

/-- The registry entry of a type identity; only types outside the closed set
of primitives can be registered. -/
def Env.entry (env : Env) : type_info → Option EnumEntry
  | .of (.other id) => env.enums.lookup id
  | _ => none

namespace Enum

/-- Modelled from the spec: Enum::name of the absent Enum.hpp, the registered
name of an enum type, the empty string for a type that is not registered. -/
def name (env : Env) (type : type_info) : String :=
  match env.entry type with
  | some e => e.name
  | none => ""

/-- Modelled from the spec: Enum::size of the absent Enum.hpp, the number of
symbolic names of a registered enum, 0 for a type that is not registered. -/
def size (env : Env) (type : type_info) : Nat :=
  match env.entry type with
  | some e => e.members.length
  | none => 0

/-- Modelled from the spec: Enum::all_values of the absent Enum.hpp, the
ordered symbolic names of the type. -/
def all_values (env : Env) (type : type_info) : List String :=
  match env.entry type with
  | some e => e.members
  | none => []

/-- Modelled from the spec: Enum::from_string of the absent Enum.hpp, exact
lookup of a name in the symbol list: its index, or -1 when there is none. -/
def from_string (env : Env) (type : type_info) (str : String) : Int :=
  match env.entry type with
  | some e => if str ∈ e.members then (e.members.indexOf str : Int) else -1
  | none => -1

/-- Modelled from the spec: Enum::to_string of the absent Enum.hpp, the
symbolic name of an ordinal; an ordinal outside the range has no name. -/
def to_string (env : Env) (type : type_info) (e : Int) : String :=
  if e < 0 then "" else (all_values env type).getD e.toNat ""

end Enum

/-! ## Reflection: setters, fuzzy setter, getters -/

namespace Reflection

/-- Reflection::set with an int value (lines 71-89). The int is given by its
mathematical value; the bytes copied into the field are its 32-bit
representation, or the representation of int64_t(value) for an int64_t
field. Returns the result and the struct afterwards. -/
def set_int (env : Env) (target : Struct) (name : String) (value : Int) : Bool × Struct :=
  match target.type_of name with
  | none => (false, target)
  | some target_type =>
    -- No need to convert an int or a registered enum.
    if target_type = typeid .int32 || !(Enum.name env target_type).isEmpty then
      (true, target.set name (.bits (to_bits .int32 value)))
    -- Promote to an int64_t.
    else if target_type = typeid .int64 then
      let int64 := to_bits .int64 value
      (true, target.set name (.bits int64))
    else
      (false, target)

/-- Reflection::set with a std::string value (lines 91-106). -/
def set_string (env : Env) (target : Struct) (name : String) (value : String) : Bool × Struct :=
  match target.type_of name with
  | none => (false, target)
  | some target_type =>
    if (Enum.name env target_type).isEmpty then
      (false, target)
    else
      let enum_value := Enum.from_string env target_type value
      if enum_value < 0 then
        (false, target)
      else
        (true, target.set name (.bits (to_bits .int32 enum_value)))

/-- The std::string built from a char pointer: the characters before the
first NUL. -/
def string_of_c_str (value : String) : String :=
  String.mk (value.data.takeWhile (fun c => c.toNat ≠ 0))

/-- Reflection::set with a const char pointer value (lines 108-111). -/
def set_c_str (env : Env) (target : Struct) (name : String) (value : String) : Bool × Struct :=
  set_string env target name (string_of_c_str value)

/-- Reflection::set with a bool value (lines 113-122): the write happens for
a bool field, and the function returns false on every path. -/
def set_bool (target : Struct) (name : String) (value : Bool) : Bool × Struct :=
  match target.type_of name with
  | none => (false, target)
  | some target_type =>
    let target := if target_type = typeid .bool
      then target.set name (.bits (if value then 1 else 0))
      else target
    (false, target)

/-- The C function tolower in the C locale. -/
def tolower (c : Char) : Char :=
  if 'A' ≤ c ∧ c ≤ 'Z' then Char.ofNat (c.toNat + 32) else c

/-- The array c_str() points at: the characters followed by a NUL. -/
def c_str (s : String) : List Char := s.data ++ [Char.ofNat 0]

/-- The while loop of the comparison lambda of fuzzy_set (lines 145-150) over
the two character arrays v and e: it runs until v points at a NUL. -/
def fuzzy_loop : List Char → List Char → Bool
  | [], _ => true
  | v :: vs, es =>
    if v.toNat = 0 then true
    else if tolower v ≠ tolower (es.headD (Char.ofNat 0)) then false
    else fuzzy_loop vs es.tail

/-- The comparison lambda of fuzzy_set (lines 141-151). -/
def fuzzy_compare (value entry : String) : Bool :=
  if value.length ≠ entry.length then false
  else fuzzy_loop (c_str value) (c_str entry)

/-- Reflection::fuzzy_set (lines 126-162). -/
def fuzzy_set (env : Env) (target : Struct) (name : String) (value : String) : Bool × Struct :=
  match target.type_of name with
  | none => (false, target)
  | some target_type =>
    -- If the target is a registered enum, try to convert the value. Failing that,
    -- try to match without case sensitivity.
    if Enum.size env target_type ≠ 0 then
      let from_string := Enum.from_string env target_type value
      if from_string ≥ 0 then
        (true, target.set name (.bits (to_bits .int32 from_string)))
      else
        let all_values := Enum.all_values env target_type
        let value_location := all_values.findIdx (fuzzy_compare value)
        if value_location ≠ all_values.length then
          let offset : Int := value_location
          (true, target.set name (.bits (to_bits .int32 offset)))
        else
          (false, target)
    else
      (false, target)

/-- The Map macro applied over ForAllInts (lines 195-197): the stored type
that matches assigns static_cast<Type>(stored object) to value. -/
def map_ints (T : TypeId) (target_type : type_info) (raw : Nat) (value : Value) : Value :=
  ForAllInts.foldl
    (fun value x => if target_type = typeid x then .bits (static_cast T x raw) else value)
    value

/-- The conversion static_cast<T>(x) between floating-point types on
representations: the identity for equal types, the widening of the hardware
for float to double. The narrowing direction is never requested by get. -/
def float_cast (env : Env) (T S : TypeId) (raw : Nat) : Nat :=
  if T = S then raw
  else if S = .float then env.float_to_double raw
  else raw

/-- The Map macro applied over ForAllFloats (lines 212-214). -/
def map_floats (env : Env) (T : TypeId) (target_type : type_info) (raw : Nat) (value : Value) : Value :=
  ForAllFloats.foldl
    (fun value x => if target_type = typeid x then .bits (float_cast env T x raw) else value)
    value

/-- Reflection::get<Type>(target, name, value, offset) (lines 166-220),
Type being T. Returns the result and the content of the output argument
value afterwards. -/
def get (env : Env) (T : TypeId) (target : Struct) (name : String) (value : Value)
    (offset : Nat) : Bool × Value :=
  match target.type_of name with
  | none => (false, value)
  | some target_type =>
    -- If type is a direct match, copy.
    if target_type = typeid T then
      (true, (target.get name).getD offset (.bits 0))
    -- If the type is a registered enum and the value type is int, copy.
    else if std_is_integral T && sizeof T == sizeof .int32
        && !(Enum.name env target_type).isEmpty then
      (true, (target.get name).getD 0 (.bits 0))
    -- If the type is an int that is larger than the stored type and matches the
    -- signedness, cast upward.
    else if std_is_integral T && TypeInfo.is_integral target_type
        && (decide (sizeof T > TypeInfo.size target_type)
          && (!TypeInfo.is_signed target_type || std_is_signed T)) then
      let address := ((target.get name).getD offset (.bits 0)).raw
      (true, map_ints T target_type address value)
    -- If the type is a double and stored type is a float, cast upward.
    else if std_is_floating_point T
        && (decide (sizeof T > TypeInfo.size target_type)
          && TypeInfo.is_floating_point target_type) then
      let address := ((target.get name).getD offset (.bits 0)).raw
      (true, map_floats env T target_type address value)
    else
      (false, value)

/-- Reflection::get<Type>(target, name, offset) (lines 222-226), the
value-returning overload. -/
def get_value (env : Env) (T : TypeId) (target : Struct) (name : String) (offset : Nat) : Value :=
  let value := zero_value T
  (get env T target name value offset).2

end Reflection

/-! ## Serialisation -/

namespace Struct

namespace serialise

/-- The byte a C++ char occupies in the output vector. -/
def byte_of (c : Char) : Nat := c.toNat % 256

/-- The lambda push_name (lines 309-312): the characters of the name, then
a 0 byte. -/
def push_name (result : List Nat) (name : String) : List Nat :=
  result ++ name.data.map byte_of ++ [0]

/-- The lambda push_int (lines 315-320) for x of integer type T with
representation raw: the type byte, the name, then uint8_t(x >> (8 * c)) for
each of the sizeof(x) bytes. -/
def push_int (result : List Nat) (output_name : String) (type : Nat) (T : TypeId)
    (raw : Nat) : List Nat :=
  push_name (result ++ [type]) output_name
    ++ (List.range (sizeof T)).map (fun c => to_bits .uint8 (of_bits T raw / 2 ^ (8 * c)))

/-- The lambda push_string (lines 322-333). -/
def push_string (result : List Nat) (output_name : String) (text : String) : List Nat :=
  let string_length := (text.length + 1) % 2 ^ 32
  push_name (result ++ [0x02]) output_name
    ++ [string_length % 256, (string_length / 2 ^ 8) % 256,
        (string_length / 2 ^ 16) % 256, (string_length / 2 ^ 24) % 256]
    ++ text.data.map byte_of ++ [0]

/-- The lambda append (lines 314-390). Field names are unique within a
struct, so every lookup of key in the serialised struct finds the field
being visited: this is that field alone, and sub_document is the result of
child->serialise() when the field is a nested struct. The get call of the
enum case (line 346) fills a local that is never read and is left out. The
result is none when the closing assert(false) is reached. -/
def append (env : Env) (result : List Nat) (this : Struct) (key output_name : String)
    (type : type_info) (offset : Nat) (sub_document : Option (List Nat)) :
    Option (List Nat) :=
  -- Test for an exact match on Booleans.
  if type = typeid .bool then
    some (push_name (result ++ [0x08]) output_name
      ++ [(Reflection.get_value env .bool this key offset).raw % 256])
  -- Record the string value for enums.
  else if !(Enum.name env type).isEmpty then
    let text := Enum.to_string env type 0
    some (push_string result output_name text)
  else
    -- Test for ints that will safely convert to an int32.
    let int32 := Reflection.get env .int32 this key (.bits 0) offset
    if int32.1 then
      some (push_int result output_name 0x10 .int32 int32.2.raw)
    else
      -- Test for ints that can be converted to an int64.
      let int64 := Reflection.get env .int64 this key (.bits 0) offset
      if int64.1 then
        some (push_int result output_name 0x12 .int64 int64.2.raw)
      else
        -- There is only one potential float type: a double.
        let float64 := Reflection.get env .double this key (.bits 0) offset
        if float64.1 then
          some result
        -- Okay, check for a potential recursion.
        else if type = type_info.Struct then
          match sub_document with
          | some sub_document => some (push_name (result ++ [0x03]) output_name ++ sub_document)
          | none => none
        else
          none

/-- The lambda wrap_object (lines 392-403): a 0 terminator is pushed, then
the four bytes of uint32_t(data.size()) + 4 are inserted at the front, the
most significant first so that the least significant ends up first. -/
def wrap_object (data : List Nat) : List Nat :=
  let data := data ++ [0]
  let size_with_prefix := (data.length % 2 ^ 32 + 4) % 2 ^ 32
  let data := ( size_with_prefix / 2 ^ 24) % 256 :: data
  let data := ( size_with_prefix / 2 ^ 16) % 256 :: data
  let data := ( size_with_prefix / 2 ^ 8) % 256 :: data
  let data := ( size_with_prefix % 256) % 256 :: data
  data

/-- The inner loop of serialise for a field with more than one element
(lines 419-423): the elements are appended under the keys 0, 1, ... to an
empty vector, which is then wrapped as a document. -/
def array_document (env : Env) (this : Struct) (key : String) (type : type_info)
    (count : Nat) (sub_document : Option (List Nat)) : Option (List Nat) :=
  match (List.range count).foldlM
      (fun array c => append env array this key (toString c) type c sub_document) [] with
  | some array => some (wrap_object array)
  | none => none

/-- The body of the for loop of serialise (lines 408-428) for one key, with
count and type already looked up. -/
def element (env : Env) (result : List Nat) (this : Struct) (key : String)
    (type : type_info) (count : Nat) (sub_document : Option (List Nat)) :
    Option (List Nat) :=
  if count > 1 then
    -- In BSON, an array is a sub-document with ASCII keys 0, 1, etc.
    match array_document env this key type count sub_document with
    | some array => some (push_name (result ++ [0x03]) key ++ array)
    | none => none
  else
    append env result this key key type 0 sub_document

end serialise

open serialise in
/-- The for loop of Struct::serialise (lines 405-429) over the keys in
declaration order, started with the bytes in result; the last line of a
nested field is the recursive call child->serialise() of line 382. -/
def serialise_loop (env : Env) : Struct → List Nat → Option (List Nat)
  | nil, result => some result
  | field name type elems ser rest, result =>
    if !ser then serialise_loop env rest result
    else
      match element env result (field name type elems ser nil) name (typeid type)
          elems.length none with
      | some result => serialise_loop env rest result
      | none => none
  | nested name count child ser rest, result =>
    if !ser then serialise_loop env rest result
    else
      match element env result (nested name count child ser nil) name type_info.Struct
          count ((serialise_loop env child []).map wrap_object) with
      | some result => serialise_loop env rest result
      | none => none

/-- Struct::serialise (lines 308-433): none when the closing assert(false) of
append is reached for some field. -/
def serialise (env : Env) (s : Struct) : Option (List Nat) :=
  (serialise_loop env s []).map serialise.wrap_object

end Struct

/-! ## Description -/

namespace Struct

namespace description

/-- The text operator<< produces for an unsigned integer under std::hex:
lowercase hexadecimal digits without leading zeros. -/
def hex (n : Nat) : String := String.mk (Nat.toDigits 16 n)

/-- The effect of setfill(0) and setw(width) on the next output: the text is
padded on the left with the digit 0 up to the width, and never cut. -/
def setw_fill (width : Nat) (text : String) : String :=
  String.mk (List.replicate (width - text.length) '0') ++ text

/-- The macro OutputIntC(int_type, cast_type) (line 238): the element is read
by get of int_type, converted to cast_type and written under std::hex with
width sizeof(int_type) * 2; under std::hex a signed integer is written as the
unsigned integer of the same width with the same representation. -/
def OutputIntC (env : Env) (this : Struct) (key : String) (offset : Nat)
    (int_type cast_type : TypeId) : String :=
  setw_fill (sizeof int_type * 2)
    (hex (static_cast cast_type int_type (Reflection.get_value env int_type this key offset).raw))

/-- The text operator<< produces for a bool without boolalpha. -/
def output_bool (v : Value) : String := if v.raw = 0 then "0" else "1"

/-- The text operator<< produces for a std::string or a char pointer. -/
def output_text : Value → String
  | .text s => s
  | .bits _ => ""

/-- Struct::append of the description (lines 230-272): the text written to
the stream for element offset of the field; this is the visited field alone
(field names are unique), render_float is the native formatting of a float
or double given by its representation, and child_description is the result of
child->description() for a nested struct. Nothing is written for a type that
matches no case. -/
def append (env : Env) (render_float : TypeId → Nat → String) (this : Struct)
    (key : String) (type : type_info) (offset : Nat) (child_description : String) :
    String :=
  -- Output Bools as yes/no.
  if type = typeid .bool then output_bool (Reflection.get_value env .bool this key offset)
  -- Output Ints of all sizes as hex.
  else if type = typeid .int8 then OutputIntC env this key offset .int8 .int16
  else if type = typeid .uint8 then OutputIntC env this key offset .uint8 .uint16
  else if type = typeid .int16 then OutputIntC env this key offset .int16 .int16
  else if type = typeid .uint16 then OutputIntC env this key offset .uint16 .uint16
  else if type = typeid .int32 then OutputIntC env this key offset .int32 .int32
  else if type = typeid .uint32 then OutputIntC env this key offset .uint32 .uint32
  else if type = typeid .int64 then OutputIntC env this key offset .int64 .int64
  else if type = typeid .uint64 then OutputIntC env this key offset .uint64 .uint64
  -- Output floats and strings natively.
  else if type = typeid .float then
    render_float .float (Reflection.get_value env .float this key offset).raw
  else if type = typeid .double then
    render_float .double (Reflection.get_value env .double this key offset).raw
  else if type = typeid .cstring then
    output_text (Reflection.get_value env .cstring this key offset)
  else if type = typeid .string then
    output_text (Reflection.get_value env .string this key offset)
  -- Output the current value of any enums.
  else if !(Enum.name env type).isEmpty then
    let value := of_bits .int32 (Reflection.get_value env .int32 this key offset).raw
    Enum.to_string env type value
  -- Recurse to deal with embedded objects.
  else if type = type_info.Struct then child_description
  else ""

/-- The body of the for loop of description (lines 281-299) for one key after
the separator: the key, a colon, and the elements, in brackets unless there
is exactly one. -/
def entry (env : Env) (render_float : TypeId → Nat → String) (this : Struct)
    (key : String) (type : type_info) (count : Nat) (child_description : String) :
    String :=
  key ++ ": "
    ++ (if count ≠ 1 then "[" else "")
    ++ String.join ((List.range count).map (fun index =>
        append env render_float this key type index child_description
          ++ (if index ≠ count - 1 then ", " else "")))
    ++ (if count ≠ 1 then "]" else "")

end description

open description in
/-- The for loop of Struct::description (lines 280-300) over the keys in
declaration order; is_first is the flag of the source. -/
def description_loop (env : Env) (render_float : TypeId → Nat → String) :
    Struct → Bool → String
  | nil, _ => ""
  | field name type elems ser rest, is_first =>
    (if !is_first then ", " else "")
      ++ entry env render_float (field name type elems ser nil) name (typeid type)
          elems.length ""
      ++ description_loop env render_float rest false
  | nested name count child ser rest, is_first =>
    (if !is_first then ", " else "")
      ++ entry env render_float (nested name count child ser nil) name type_info.Struct
          count ("\x7b" ++ description_loop env render_float child true ++ "\x7d")
      ++ description_loop env render_float rest false

/-- Struct::description (lines 274-305). -/
def description (env : Env) (render_float : TypeId → Nat → String) (s : Struct) : String :=
  "\x7b" ++ description_loop env render_float s true ++ "\x7d"

end Struct

/-! ## Reading the output -/

/-- The first four bytes of a byte sequence read as a little-endian unsigned
32-bit integer. -/
def read_le32 (bytes : List Nat) : Nat :=
  bytes.getD 0 0 + 2 ^ 8 * bytes.getD 1 0 + 2 ^ 16 * bytes.getD 2 0 + 2 ^ 24 * bytes.getD 3 0

/-- The names of the fields the serialiser does not skip, in declaration
order. -/
def Struct.serialisable_keys : Struct → List String
  | .nil => []
  | .field name _ _ ser rest =>
    if ser then name :: serialisable_keys rest else serialisable_keys rest
  | .nested name _ _ ser rest =>
    if ser then name :: serialisable_keys rest else serialisable_keys rest

/-- The comparison the specification of fuzzy_set describes: two strings
compared character by character ignoring ASCII case, which requires equal
length. -/
def spec_equal_ignoring_case (a b : String) : Bool :=
  a.data.map Reflection.tolower == b.data.map Reflection.tolower

/-- A three-character std::string with an embedded NUL: L, NUL, x. -/
def sample_nul_value : String := String.mk ['L', Char.ofNat 0, 'x']

/-! ## The serialised fields one by one -/

/-- The part of a struct that starts at the first field named key: what the
lookups of key by type_of, count_of and get address. -/
def Struct.from_key : Struct → String → Struct
  | .nil, _ => .nil
  | .field name type elems ser rest, key =>
    if name = key then .field name type elems ser rest else from_key rest key
  | .nested name count child ser rest, key =>
    if name = key then .nested name count child ser rest else from_key rest key

/-- The encoded element of the first field of a struct, serialised on its
own into an empty vector. -/
def Struct.encoded_field (env : Env) : Struct → Option (List Nat)
  | .nil => some []
  | .field name type elems ser _ =>
    Struct.serialise.element env [] (.field name type elems ser .nil) name (typeid type)
      elems.length none
  | .nested name count child ser _ =>
    Struct.serialise.element env [] (.nested name count child ser .nil) name
      type_info.Struct count (Struct.serialise env child)

/-- The encoded element of the field named key. -/
def Struct.encoded_element (env : Env) (s : Struct) (key : String) : Option (List Nat) :=
  (s.from_key key).encoded_field env

/-- The concatenation of the encoded elements of the given keys, in the order
of the list; there is none when one of the elements cannot be encoded. -/
def concat_elements (f : String → Option (List Nat)) : List String → Option (List Nat)
  | [] => some []
  | key :: keys =>
    match f key, concat_elements f keys with
    | some e, some r => some (e ++ r)
    | _, _ => none

/-- What the specification has between the length bytes and the terminator
of a document: the encoded elements, in the order of all_keys, of the fields
for which should_serialise is true. -/
def spec_serialise_body (env : Env) (s : Struct) : Option (List Nat) :=
  concat_elements (s.encoded_element env) (s.all_keys.filter s.should_serialise)

/-- The n-byte little-endian two-s complement encoding of the integer v. -/
def twos_complement_le (n : Nat) (v : Int) : List Nat :=
  (List.range n).map (fun c => (v % 2 ^ (8 * n)).toNat / 256 ^ c % 256)

/-- The struct the specification compares an array with: one single-element
serialisable field per element, of the same element type, named by the
decimal index of the element, counted from first. -/
def array_as_struct (type : TypeId) : List Value → Nat → Struct
  | [], _ => .nil
  | v :: vs, first => .field (toString first) type [v] true (array_as_struct type vs (first + 1))

/-! ## An independent reader of documents -/

/-- One decoded element of a document: its kind, its name and its value; an
embedded document is kept as its bytes. -/
inductive Element where
  | boolean (name : String) (value : Bool)
  | int32 (name : String) (value : Int)
  | int64 (name : String) (value : Int)
  | string (name : String) (text : String)
  | document (name : String) (bytes : List Nat)
  deriving DecidableEq, Repr

namespace Reader

/-- The bytes before the first 0 byte, and the bytes after it. -/
def read_cstring : List Nat → Option (List Nat × List Nat)
  | [] => none
  | b :: bytes =>
    if b = 0 then some ([], bytes)
    else match read_cstring bytes with
      | some (text, rest) => some (b :: text, rest)
      | none => none

/-- Bytes as text, one character per byte. -/
def to_text (bytes : List Nat) : String := String.mk (bytes.map Char.ofNat)

/-- The first n bytes read as a little-endian two-s complement integer. -/
def read_int (n : Nat) (bytes : List Nat) : Int :=
  let u : Nat := (bytes.take n).foldr (fun b acc => b + 256 * acc) 0
  if 2 ^ (8 * n - 1) ≤ u then (u : Int) - 2 ^ (8 * n) else (u : Int)

/-- The elements of an element list, read front to back; fuel bounds the
number of elements. -/
def read_elements : Nat → List Nat → Option (List Element)
  | _, [] => some []
  | 0, _ :: _ => none
  | fuel + 1, tag :: bytes =>
    match read_cstring bytes with
    | none => none
    | some (name, payload) =>
      if tag = 0x08 then
        match payload with
        | b :: rest =>
          if b ≤ 1 then
            (read_elements fuel rest).map (fun l => Element.boolean (to_text name) (b = 1) :: l)
          else none
        | [] => none
      else if tag = 0x10 then
        if payload.length < 4 then none
        else (read_elements fuel (payload.drop 4)).map
          (fun l => Element.int32 (to_text name) (read_int 4 payload) :: l)
      else if tag = 0x12 then
        if payload.length < 8 then none
        else (read_elements fuel (payload.drop 8)).map
          (fun l => Element.int64 (to_text name) (read_int 8 payload) :: l)
      else if tag = 0x02 then
        let length := read_le32 payload
        if payload.length < 4 + length ∨ length = 0
            ∨ (payload.drop 4).getD (length - 1) 1 ≠ 0 then none
        else (read_elements fuel (payload.drop (4 + length))).map
          (fun l => Element.string (to_text name)
            (to_text ((payload.drop 4).take (length - 1))) :: l)
      else if tag = 0x03 then
        let length := read_le32 payload
        if payload.length < length ∨ length < 5 then none
        else (read_elements fuel (payload.drop length)).map
          (fun l => Element.document (to_text name) (payload.take length) :: l)
      else none

/-- A document read: the length bytes must give the length, the last byte
must be the terminator, and the bytes between are an element list. -/
def read_document (bytes : List Nat) : Option (List Element) :=
  if bytes.length < 5 ∨ read_le32 bytes ≠ bytes.length ∨ bytes.getLast? ≠ some 0 then none
  else read_elements bytes.length ((bytes.drop 4).dropLast)

end Reader

/-- The value of one lowercase hexadecimal digit. -/
def hex_digit_value (c : Char) : Nat :=
  if '0' ≤ c ∧ c ≤ '9' then c.toNat - 48 else c.toNat - 87

/-- The number a text of lowercase hexadecimal digits denotes, read from the
most significant digit. -/
def hex_value (text : String) : Nat :=
  text.data.foldl (fun acc c => 16 * acc + hex_digit_value c) 0

/-! ## The description entry by entry -/

namespace Inputs

/-- Element axis of a two-element array. -/
def index {α : Type} (array : α × α) (axis : Nat) : α :=
  if axis = 0 then array.1 else array.2

/-- A two-element array with element axis replaced. -/
def assign {α : Type} (array : α × α) (axis : Nat) (v : α) : α × α :=
  if axis = 0 then (v, array.2) else (array.1, v)

/-- The value an int holds after an arithmetic result v: 32 bits, two-s
complement. -/
def wrap_int (v : Int) : Int := (v + 2 ^ 31) % 2 ^ 32 - 2 ^ 31

/-- The movement state of a QuadratureMouse (QuadratureMouse.hpp lines
95-99): the accumulated movement axes_ and the channel bits primaries_ and
secondaries_, which only ever hold 0 or 1. The buttons are left out. -/
structure QuadratureMouse where
  axes : Int × Int
  primaries : Nat × Nat
  secondaries : Nat × Nat
  deriving DecidableEq, Repr

namespace QuadratureMouse

/-- A mouse as constructed (lines 23-24 and 98-99): both channel arrays are
0; the accumulated movement is whatever the atomics are initialised with. -/
def construct (axes : Int × Int) : QuadratureMouse :=
  { axes := axes, primaries := (0, 0), secondaries := (0, 0) }

/-- QuadratureMouse::move (lines 29-33). -/
def move (m : QuadratureMouse) (x y : Int) : QuadratureMouse :=
  let axes := assign m.axes 0 (wrap_int (index m.axes 0 + x))
  let axes := assign axes 1 (wrap_int (index axes 1 + y))
  { m with axes := axes }

/-- The body of the for loop of prepare_step (lines 56-70) for one axis. The
decrement is applied to a positive int and the increment to a negative one,
so neither can overflow. -/
def prepare_step_axis (m : QuadratureMouse) (axis : Nat) : QuadratureMouse :=
  let axis_value := index m.axes axis
  if axis_value = 0 then m
  else
    let primaries := assign m.primaries axis (index m.primaries axis ^^^ 1)
    let secondaries := assign m.secondaries axis (index primaries axis ^^^ axis)
    if axis_value > 0 then
      { axes := assign m.axes axis (index m.axes axis - 1),
        primaries := primaries,
        secondaries := assign secondaries axis (index secondaries axis ^^^ 1) }
    else
      { axes := assign m.axes axis (index m.axes axis + 1),
        primaries := primaries,
        secondaries := secondaries }

/-- QuadratureMouse::prepare_step (lines 54-72): the loop over axis 0 and
axis 1. -/
def prepare_step (m : QuadratureMouse) : QuadratureMouse :=
  prepare_step_axis (prepare_step_axis m 0) 1

/-- QuadratureMouse::get_channel (lines 80-82). -/
def get_channel (m : QuadratureMouse) (axis : Nat) : Nat :=
  index m.primaries axis ||| (index m.secondaries axis <<< 1)

/-- The channel arrays hold bits. -/
def channels_are_bits (m : QuadratureMouse) : Prop :=
  m.primaries.1 ≤ 1 ∧ m.primaries.2 ≤ 1 ∧ m.secondaries.1 ≤ 1 ∧ m.secondaries.2 ≤ 1

instance (m : QuadratureMouse) : Decidable (channels_are_bits m) := by
  unfold channels_are_bits
  infer_instance

end QuadratureMouse

end Inputs

/-! ## StaticAnalyser: Atari 2600 cartridges -/

namespace StaticAnalyser

/-- The paging models of StaticAnalyser.hpp, which is absent; the names are
those StaticAnalyser.cpp uses. -/
inductive Atari2600PagingModel where
  | None | CommaVid | Atari8k | Atari16k | Atari32k | ActivisionStack
  | ParkerBros | Tigervision | CBSRamPlus | MNetwork | MegaBoy | Pitfall2
  deriving DecidableEq, Repr

namespace MOS6502

/-- The operations of an Instruction the analyser tells apart. -/
inductive Operation where
  | STA
  | other (code : Nat)
  deriving DecidableEq, Repr

/-- The addressing modes of an Instruction the analyser tells apart. -/
inductive AddressingMode where
  | Indirect | IndexedIndirectX | IndirectIndexedY
  | other (code : Nat)
  deriving DecidableEq, Repr

/-- An Instruction of Disassembler6502.hpp, which is absent. -/
structure Instruction where
  operation : Operation
  addressing_mode : AddressingMode
  deriving DecidableEq, Repr

/-- A Disassembly of Disassembler6502.hpp, which is absent: the instructions
by address and the sets of addresses accessed. -/
structure Disassembly where
  instructions_by_address : List (Nat × Instruction)
  internal_stores : List Nat
  internal_modifies : List Nat
  internal_loads : List Nat
  external_stores : List Nat
  deriving DecidableEq, Repr

end MOS6502

/-- A cartridge segment: its bytes. -/
structure Segment where
  data : List Nat
  deriving DecidableEq, Repr

/-- A cartridge: what get_segments returns. -/
structure Cartridge where
  segments : List Segment
  deriving DecidableEq, Repr

/-- The media handed to AddTargets: its cartridges. -/
structure Media where
  cartridges : List Cartridge
  deriving DecidableEq, Repr

/-- The fields of a Target that AddTargets for the Atari sets up, apart from
the constant machine and probability. -/
structure Target where
  cartridges : List Cartridge
  paging_model : Atari2600PagingModel
  uses_superchip : Bool
  deriving DecidableEq, Repr

namespace Atari

/-- The function MOS6502::Disassemble, which is absent, as the analyser uses
it: bytes, address mapper and entry points give a Disassembly. -/
abbrev Disassembler := List Nat → (Nat → Nat) → List Nat → MOS6502.Disassembly

/-- A read segment.data[i]: none when i is outside the vector. -/
def read (data : List Nat) (i : Nat) : Option Nat := data[i]?

/-- The size_t value of size - k. -/
def size_minus (size k : Nat) : Nat := (size + 2 ^ 64 - k) % 2 ^ 64

/-- The uint16_t built from a low and a high byte (lines 19, 20, 125, 126). -/
def uint16_of (low high : Nat) : Nat := (low ||| (high <<< 8)) % 2 ^ 16

/-- The test segment.data[i] == v as one operand of a condition. -/
def read_is (data : List Nat) (i v : Nat) : Option Bool :=
  (read data i).map (fun b => b == v)

/-- The operator && on operands that read: the right operand is evaluated
only when the left one is true. -/
def and_then (a b : Option Bool) : Option Bool :=
  match a with
  | some true => b
  | other => other

/-- The operator || on operands that read: the right operand is evaluated
only when the left one is false. -/
def or_else (a b : Option Bool) : Option Bool :=
  match a with
  | some false => b
  | other => other

/-- The number of addresses of a loop for which a condition holds: the
statement count += condition for every address. -/
def count_where (p : Nat → Bool) (addresses : List Nat) : Nat :=
  addresses.foldl (fun count address => count + (if p address then 1 else 0)) 0

/-- The std::set internal_accesses (lines 68-71 and 94-97): stores, modifies
and loads inserted into one set. -/
def internal_accesses (disassembly : MOS6502.Disassembly) : List Nat :=
  (disassembly.internal_stores ++ disassembly.internal_modifies
    ++ disassembly.internal_loads).dedup

/-- The lambda high_location_mapper (lines 25-28). -/
def high_location_mapper (address : Nat) : Nat :=
  let address := address &&& 0x1fff
  (((address : Int) - 0x1800) % 2 ^ 64).toNat

/-- The lambda address_mapper (lines 128-131). -/
def address_mapper (address : Nat) : Nat :=
  if address &&& 0x1000 = 0 then 2 ^ 64 - 1
  else address &&& 0xfff

/-- DeterminePagingFor2kCartridge (lines 15-50); none when a read of
segment.data is out of bounds. The loop over the instructions stops at the
first store that sets has_wide_area_store. -/
def DeterminePagingFor2kCartridge (Disassemble : Disassembler) (target : Target)
    (segment : Segment) : Option Target :=
  match read segment.data 0x7fc, read segment.data 0x7fd,
      read segment.data 0x7fe, read segment.data 0x7ff with
  | some b0, some b1, some b2, some b3 =>
    let entry_address := uint16_of b0 b1 &&& 0x1fff
    let break_address := uint16_of b2 b3 &&& 0x1fff
    -- a CommaVid start address needs to be outside of its RAM
    if entry_address < 0x1800 || break_address < 0x1800 then some target
    else
      let high_location_disassembly :=
        Disassemble segment.data high_location_mapper [entry_address, break_address]
      let has_wide_area_store :=
        high_location_disassembly.instructions_by_address.any (fun entry =>
          entry.2.operation == MOS6502.Operation.STA &&
            (entry.2.addressing_mode == MOS6502.AddressingMode.Indirect ||
             entry.2.addressing_mode == MOS6502.AddressingMode.IndexedIndirectX ||
             entry.2.addressing_mode == MOS6502.AddressingMode.IndirectIndexedY))
      if has_wide_area_store then
        some { target with paging_model := Atari2600PagingModel.CommaVid }
      else some target
  | _, _, _, _ => none

/-- The condition of the if of DeterminePagingFor8kCartridge (lines 56-60). -/
def activision_stack_test (data : List Nat) : Option Bool :=
  and_then (read_is data 4095 0xf0) <|
  and_then (read_is data 4093 0xf0) <|
  and_then (read_is data 4094 0x00) <|
  and_then (read_is data 4092 0x00) <|
  and_then
    (or_else ((read_is data 8191 0xf0).map not) <|
     or_else ((read_is data 8189 0xf0).map not) <|
     or_else ((read_is data 8190 0x00).map not) <|
     (read_is data 8188 0x00).map not) <|
  read_is data 0 0x78

/-- DeterminePagingFor8kCartridge (lines 52-88). -/
def DeterminePagingFor8kCartridge (target : Target) (segment : Segment)
    (disassembly : MOS6502.Disassembly) : Option Target :=
  match activision_stack_test segment.data with
  | none => none
  | some true => some { target with paging_model := Atari2600PagingModel.ActivisionStack }
  | some false =>
    -- make an assumption that this is the Atari paging model
    let target := { target with paging_model := Atari2600PagingModel.Atari8k }
    let accesses := internal_accesses disassembly
    let atari_access_count := count_where (fun address =>
      decide ((address &&& 0x1fff) ≥ 0x1ff8) && decide ((address &&& 0x1fff) < 0x1ffa)) accesses
    let parker_access_count := count_where (fun address =>
      decide ((address &&& 0x1fff) ≥ 0x1fe0) && decide ((address &&& 0x1fff) < 0x1ff8)) accesses
    let tigervision_access_count := count_where (fun address =>
      decide ((address &&& 0x1fff) = 0x3f)) disassembly.external_stores
    if parker_access_count > atari_access_count then
      some { target with paging_model := Atari2600PagingModel.ParkerBros }
    else if tigervision_access_count > atari_access_count then
      some { target with paging_model := Atari2600PagingModel.Tigervision }
    else some target

/-- DeterminePagingFor16kCartridge (lines 90-108); it reads no byte of the
segment. -/
def DeterminePagingFor16kCartridge (target : Target) (disassembly : MOS6502.Disassembly) :
    Target :=
  -- make an assumption that this is the Atari paging model
  let target := { target with paging_model := Atari2600PagingModel.Atari16k }
  let accesses := internal_accesses disassembly
  let atari_access_count := count_where (fun address =>
    decide ((address &&& 0x1fff) ≥ 0x1ff6) && decide ((address &&& 0x1fff) < 0x1ffa)) accesses
  let mnetwork_access_count := count_where (fun address =>
    decide ((address &&& 0x1fff) ≥ 0x1fe0) && decide ((address &&& 0x1fff) < 0x1ffb)) accesses
  if mnetwork_access_count > atari_access_count then
    { target with paging_model := Atari2600PagingModel.MNetwork }
  else target

/-- DeterminePagingFor64kCartridge (lines 110-115). -/
def DeterminePagingFor64kCartridge (target : Target) (disassembly : MOS6502.Disassembly) :
    Target :=
  { target with paging_model :=
      if 0x3f ∈ disassembly.external_stores then Atari2600PagingModel.Tigervision
      else Atari2600PagingModel.MegaBoy }

/-- The switch of DeterminePagingForCartridge (lines 136-157). -/
def paging_switch (target : Target) (segment : Segment)
    (disassembly : MOS6502.Disassembly) : Option Target :=
  if segment.data.length = 8192 then DeterminePagingFor8kCartridge target segment disassembly
  else if segment.data.length = 10495 then
    some { target with paging_model := Atari2600PagingModel.Pitfall2 }
  else if segment.data.length = 12288 then
    some { target with paging_model := Atari2600PagingModel.CBSRamPlus }
  else if segment.data.length = 16384 then
    some (DeterminePagingFor16kCartridge target disassembly)
  else if segment.data.length = 32768 then
    some { target with paging_model := Atari2600PagingModel.Atari32k }
  else if segment.data.length = 65536 then
    some (DeterminePagingFor64kCartridge target disassembly)
  else some target

/-- The for loop of the Super Chip check (lines 165-170) from address on, with
remaining iterations left: the value of has_superchip after it. -/
def superchip_loop (data : List Nat) : Nat → Nat → Option Bool
  | 0, _ => some true
  | remaining + 1, address =>
    match read data address, read data (address + 128) with
    | some a, some b => if a ≠ b then some false else superchip_loop data remaining (address + 1)
    | _, _ => none

/-- The Super Chip check of DeterminePagingForCartridge (lines 162-172). -/
def superchip_check (target : Target) (segment : Segment) : Option Target :=
  if target.paging_model ≠ Atari2600PagingModel.CBSRamPlus ∧
      target.paging_model ≠ Atari2600PagingModel.MNetwork then
    match superchip_loop segment.data 128 0 with
    | some has_superchip => some { target with uses_superchip := has_superchip }
    | none => none
  else some target

/-- The Tigervision check of DeterminePagingForCartridge (lines 175-178). -/
def tigervision_check (target : Target) (segment : Segment)
    (disassembly : MOS6502.Disassembly) : Target :=
  if target.paging_model = Atari2600PagingModel.None ∧ segment.data.length > 4096 then
    let looks_like_tigervision := decide (0x3f ∈ disassembly.external_stores)
    if looks_like_tigervision then
      { target with paging_model := Atari2600PagingModel.Tigervision }
    else target
  else target

/-- DeterminePagingForCartridge (lines 117-179); none when a read of
segment.data is out of bounds, the slice of the final 4096 bytes included. -/
def DeterminePagingForCartridge (Disassemble : Disassembler) (target : Target)
    (segment : Segment) : Option Target :=
  let size := segment.data.length
  if size = 2048 then DeterminePagingFor2kCartridge Disassemble target segment
  else
    match read segment.data (size_minus size 4), read segment.data (size_minus size 3),
        read segment.data (size_minus size 2), read segment.data (size_minus size 1) with
    | some b0, some b1, some b2, some b3 =>
      let entry_address := uint16_of b0 b1
      let break_address := uint16_of b2 b3
      if size < 4096 then none
      else
        let final_4k := segment.data.drop (size - 4096)
        let disassembly := Disassemble final_4k address_mapper [entry_address, break_address]
        match paging_switch target segment disassembly with
        | none => none
        | some target =>
          match superchip_check target segment with
          | none => none
          | some target => some (tigervision_check target segment disassembly)
    | _, _, _, _ => none

/-- StaticAnalyser::Atari::AddTargets (lines 181-201): the destination list
afterwards; none when a read of segment.data is out of bounds. -/
def AddTargets (Disassemble : Disassembler) (media : Media) (destination : List Target) :
    Option (List Target) :=
  let target : Target :=
    { cartridges := media.cartridges,
      paging_model := Atari2600PagingModel.None,
      uses_superchip := false }
  -- try to figure out the paging scheme
  match media.cartridges with
  | [] => some (destination ++ [target])
  | front :: _ =>
    match front.segments with
    | [segment] =>
      match DeterminePagingForCartridge Disassemble target segment with
      | some target => some (destination ++ [target])
      | none => none
    | _ => some (destination ++ [target])

end Atari

end StaticAnalyser

/-! ## Sample data -/

/-- A registry with one enum, Mode, of three names, and the identity in place
of the float conversion. -/
def sample_env : Env :=
  { enums := [(7, { name := "Mode", members := ["Off", "Low", "High"] })],
    float_to_double := fun raw => raw }

/-- A struct with one field of every kind the accessors distinguish. -/
def sample_struct : Struct :=
  .field "u8" .uint8 [.bits 200] true <|
  .field "i8" .int8 [.bits 251] true <|
  .field "mode" (.other 7) [.bits 0, .bits 2] true <|
  .field "flag" .bool [.bits 0] true <|
  .field "big" .int64 [.bits 0] true <|
  .field "ratio" .float [.bits 0] true <|
  .field "wide" .double [.bits 0] true <|
  .nested "kid" 1 (.field "n" .int32 [.bits 42] true .nil) true <|
  .field "n" .int32 [.bits 5, .bits 6, .bits 7] false .nil

/-- The struct of the serialisation-shape example: flag, count and name. -/
def shape_struct : Struct :=
  .field "flag" .bool [.bits 1] true <|
  .field "count" .int32 [.bits 42] true <|
  .field "name" .string [.text "x"] true .nil

/-- The struct of the serialisation-shape example without its string field. -/
def shape_struct_encodable : Struct :=
  .field "flag" .bool [.bits 1] true <|
  .field "count" .int32 [.bits 42] true .nil

/-- A disassembler that finds nothing. -/
def sample_disassembler : StaticAnalyser.Atari.Disassembler :=
  fun _ _ _ =>
    { instructions_by_address := [], internal_stores := [], internal_modifies := [],
      internal_loads := [], external_stores := [] }

/-- A disassembly with one access to an M-Network bank switch address and one
to an Atari bank switch address. -/
def sample_disassembly : StaticAnalyser.MOS6502.Disassembly :=
  { instructions_by_address := [], internal_stores := [0x1fe0], internal_modifies := [],
    internal_loads := [0x1ff6], external_stores := [] }

/-- Media with one cartridge of one segment of the given bytes. -/
def media_of (data : List Nat) : StaticAnalyser.Media :=
  { cartridges := [{ segments := [{ data := data }] }] }

/-- The bytes of a 4096-byte cartridge of zeros. -/
def sample_rom : List Nat := List.replicate 4096 0

/-! ## Basic facts -/

theorem isEmpty_empty : "".isEmpty = true := rfl

theorem isEmpty_eq_false_iff (s : String) : s.isEmpty = false ↔ s ≠ "" := by
  cases s with
  | mk l =>
    cases l with
    | nil => simp [isEmpty_empty]
    | cons c cs =>
      have h1 : (String.mk (c :: cs)).isEmpty = false := by
        simp [String.isEmpty, String.endPos, String.utf8ByteSize, String.utf8ByteSize.go]
        have := Char.utf8Size_pos c
        intro h
        have h2 := congrArg String.Pos.byteIdx h
        simp at h2
        omega
      simp [h1]
      intro h
      have := congrArg String.data h
      simp at this

theorem mem_ForAllInts (T : TypeId) :
    T ∈ ForAllInts ↔ T = .uint8 ∨ T = .int8 ∨ T = .uint16 ∨ T = .int16 ∨
      T = .uint32 ∨ T = .int32 ∨ T = .uint64 ∨ T = .int64 := by
  simp [ForAllInts]

/-- No primitive type is a registered enum. -/
theorem Enum.name_prim (env : Env) (S : TypeId) (h : S ∈ ForAllInts ∨ S = .bool ∨
    S = .float ∨ S = .double ∨ S = .cstring ∨ S = .string) :
    Enum.name env (typeid S) = "" := by
  rw [mem_ForAllInts] at h
  rcases h with (h | h | h | h | h | h | h | h) | h | h | h | h | h <;>
  subst h <;> simp [Enum.name, Env.entry]

/-- A widening integer conversion keeps the numerical value. -/
theorem static_cast_widen (S T : TypeId) (raw : Nat)
    (hS : S ∈ ForAllInts) (hT : T ∈ ForAllInts)
    (hw : sizeof S < sizeof T) (hs : std_is_signed S = false ∨ std_is_signed T = true)
    (hr : raw < 2 ^ (8 * sizeof S)) :
    of_bits T (static_cast T S raw) = of_bits S raw := by
  rw [mem_ForAllInts] at hS hT
  rcases hS with rfl | rfl | rfl | rfl | rfl | rfl | rfl | rfl <;>
  rcases hT with rfl | rfl | rfl | rfl | rfl | rfl | rfl | rfl <;>
  simp [sizeof, std_is_signed] at hw hs hr <;>
  simp only [static_cast, to_bits, of_bits, sizeof, std_is_signed, reduceCtorEq, if_false,
    Bool.true_and, Bool.false_and, decide_eq_true_eq, Nat.reducePow, Nat.reduceMul,
    Nat.reduceSub, Int.reducePow, Bool.false_eq_true] <;>
  omega

/-- The result of get on an integer field read as another integer type. -/
theorem get_int_field (env : Env) (s : Struct) (name : String) (S T : TypeId)
    (value : Value) (offset : Nat)
    (hS : S ∈ ForAllInts) (hT : T ∈ ForAllInts) (hne : T ≠ S)
    (hty : s.type_of name = some (typeid S)) :
    Reflection.get env T s name value offset =
      if sizeof S < sizeof T ∧ (std_is_signed S = false ∨ std_is_signed T = true)
      then (true, .bits (static_cast T S ((s.get name).getD offset (.bits 0)).raw))
      else (false, value) := by
  rw [mem_ForAllInts] at hS hT
  rcases hS with rfl | rfl | rfl | rfl | rfl | rfl | rfl | rfl <;>
  rcases hT with rfl | rfl | rfl | rfl | rfl | rfl | rfl | rfl <;>
  first
  | exact absurd rfl hne
  | simp [Reflection.get, hty, Enum.name, Env.entry, std_is_integral, sizeof,
      TypeInfo.is_integral, TypeInfo.size, TypeInfo.is_signed, std_is_signed,
      std_is_floating_point, TypeInfo.is_floating_point, ForAllInts, ForAllFloats,
      isEmpty_empty, Reflection.map_ints]

/-! ## Claims about get -/

/-- C1: on a field of fixed-width integer type S, get of a different integer
type T returns true exactly when T is strictly wider than S and S is unsigned
or T is signed. -/
theorem get_integer_widening_iff (env : Env) (s : Struct) (name : String) (S T : TypeId)
    (value : Value) (offset : Nat)
    (hS : S ∈ ForAllInts) (hT : T ∈ ForAllInts) (hne : T ≠ S)
    (hty : s.type_of name = some (typeid S)) :
    (Reflection.get env T s name value offset).1 = true ↔
      (sizeof S < sizeof T ∧ (std_is_signed S = false ∨ std_is_signed T = true)) := by
  rw [get_int_field env s name S T value offset hS hT hne hty]
  split_ifs with h
  · simpa using h
  · simpa using h

theorem get_integer_widening_iff_witness :
    ((Reflection.get sample_env .int32 sample_struct "u8" (.bits 0) 0).1 = true ↔
      (sizeof .uint8 < sizeof .int32 ∧
        (std_is_signed .uint8 = false ∨ std_is_signed .int32 = true))) ∧
    (Reflection.get sample_env .int32 sample_struct "u8" (.bits 0) 0).1 = true :=
  ⟨get_integer_widening_iff sample_env sample_struct "u8" .uint8 .int32 (.bits 0) 0
    (by decide) (by decide) (by decide) (by decide), by decide⟩

/-- C2: whenever get of integer type T succeeds on a field of narrower
integer type S, the value written is numerically equal to the stored element;
an unsigned-8 field holding 200 read as signed-32 yields 200, a signed-8 field
holding -5 read as signed-32 yields -5 and read as unsigned-32 fails. -/
theorem get_widening_preserves_value :
    (∀ (env : Env) (s : Struct) (name : String) (S T : TypeId) (value : Value)
        (offset : Nat),
      S ∈ ForAllInts → T ∈ ForAllInts → sizeof S < sizeof T →
      s.type_of name = some (typeid S) →
      ((s.get name).getD offset (.bits 0)).raw < 2 ^ (8 * sizeof S) →
      (Reflection.get env T s name value offset).1 = true →
      of_bits T (Reflection.get env T s name value offset).2.raw =
        of_bits S ((s.get name).getD offset (.bits 0)).raw) ∧
    (∀ (env : Env) (s : Struct) (name : String) (value : Value) (offset : Nat),
      s.type_of name = some (typeid .uint8) →
      (s.get name).getD offset (.bits 0) = .bits (to_bits .uint8 200) →
      (Reflection.get env .int32 s name value offset).1 = true ∧
      of_bits .int32 (Reflection.get env .int32 s name value offset).2.raw = 200) ∧
    (∀ (env : Env) (s : Struct) (name : String) (value : Value) (offset : Nat),
      s.type_of name = some (typeid .int8) →
      (s.get name).getD offset (.bits 0) = .bits (to_bits .int8 (-5)) →
      (Reflection.get env .int32 s name value offset).1 = true ∧
      of_bits .int32 (Reflection.get env .int32 s name value offset).2.raw = -5 ∧
      (Reflection.get env .uint32 s name value offset).1 = false) := by
  refine ⟨?_, ?_, ?_⟩
  · intro env s name S T value offset hS hT hw hty hr hok
    have hne : T ≠ S := by
      intro h
      rw [h] at hw
      exact Nat.lt_irrefl _ hw
    rw [get_int_field env s name S T value offset hS hT hne hty] at hok ⊢
    split_ifs at hok ⊢ with h
    exact static_cast_widen S T _ hS hT h.1 h.2 hr
  · intro env s name value offset hty hv
    rw [get_int_field env s name .uint8 .int32 value offset (by decide) (by decide)
      (by decide) hty, hv, if_pos (by decide)]
    exact ⟨rfl, by decide⟩
  · intro env s name value offset hty hv
    rw [get_int_field env s name .int8 .int32 value offset (by decide) (by decide)
      (by decide) hty,
      get_int_field env s name .int8 .uint32 value offset (by decide) (by decide)
      (by decide) hty, hv, if_pos (by decide), if_neg (by decide)]
    exact ⟨rfl, by decide, rfl⟩

theorem get_widening_preserves_value_witness :
    of_bits .int32 (Reflection.get sample_env .int32 sample_struct "i8" (.bits 0) 0).2.raw =
      of_bits .int8 ((sample_struct.get "i8").getD 0 (.bits 0)).raw ∧
    of_bits .int8 ((sample_struct.get "i8").getD 0 (.bits 0)).raw = -5 :=
  ⟨get_widening_preserves_value.1 sample_env sample_struct "i8" .int8 .int32 (.bits 0) 0
    (by decide) (by decide) (by decide) (by decide) (by decide) (by decide), by decide⟩

/-- C3: get of double on a float field returns true; get of float on a double
field returns false; get of an integer type on a float or double field returns
false; get of float or double on a field of an integer type returns false. -/
theorem get_float_lattice :
    (∀ (env : Env) (s : Struct) (name : String) (value : Value) (offset : Nat),
      s.type_of name = some (typeid .float) →
      (Reflection.get env .double s name value offset).1 = true) ∧
    (∀ (env : Env) (s : Struct) (name : String) (value : Value) (offset : Nat),
      s.type_of name = some (typeid .double) →
      (Reflection.get env .float s name value offset).1 = false) ∧
    (∀ (env : Env) (s : Struct) (name : String) (T : TypeId) (value : Value)
        (offset : Nat),
      T ∈ ForAllInts →
      (s.type_of name = some (typeid .float) ∨ s.type_of name = some (typeid .double)) →
      (Reflection.get env T s name value offset).1 = false) ∧
    (∀ (env : Env) (s : Struct) (name : String) (S : TypeId) (value : Value)
        (offset : Nat),
      S ∈ ForAllInts → s.type_of name = some (typeid S) →
      (Reflection.get env .float s name value offset).1 = false ∧
      (Reflection.get env .double s name value offset).1 = false) := by
  refine ⟨?_, ?_, ?_, ?_⟩
  · intro env s name value offset hty
    simp [Reflection.get, hty, Enum.name, Env.entry, std_is_integral, sizeof,
      TypeInfo.size, std_is_floating_point, TypeInfo.is_floating_point, ForAllInts,
      ForAllFloats]
  · intro env s name value offset hty
    simp [Reflection.get, hty, Enum.name, Env.entry, std_is_integral, sizeof,
      TypeInfo.size, std_is_floating_point, TypeInfo.is_floating_point, ForAllInts,
      ForAllFloats]
  · intro env s name T value offset hT hty
    rw [mem_ForAllInts] at hT
    rcases hT with rfl | rfl | rfl | rfl | rfl | rfl | rfl | rfl <;>
    rcases hty with hty | hty <;>
    simp [Reflection.get, hty, Enum.name, Env.entry, std_is_integral, sizeof,
      TypeInfo.is_integral, TypeInfo.size, std_is_floating_point,
      TypeInfo.is_floating_point, ForAllInts, ForAllFloats, isEmpty_empty]
  · intro env s name S value offset hS hty
    rw [mem_ForAllInts] at hS
    rcases hS with rfl | rfl | rfl | rfl | rfl | rfl | rfl | rfl <;>
    simp [Reflection.get, hty, Enum.name, Env.entry, std_is_integral, sizeof,
      TypeInfo.is_integral, TypeInfo.size, std_is_floating_point,
      TypeInfo.is_floating_point, ForAllInts, ForAllFloats, isEmpty_empty]

theorem get_float_lattice_witness :
    (Reflection.get sample_env .double sample_struct "ratio" (.bits 0) 0).1 = true ∧
    (Reflection.get sample_env .float sample_struct "wide" (.bits 0) 0).1 = false ∧
    (Reflection.get sample_env .int64 sample_struct "ratio" (.bits 0) 0).1 = false ∧
    (Reflection.get sample_env .double sample_struct "u8" (.bits 0) 0).1 = false :=
  ⟨get_float_lattice.1 sample_env sample_struct "ratio" (.bits 0) 0 (by decide),
   get_float_lattice.2.1 sample_env sample_struct "wide" (.bits 0) 0 (by decide),
   get_float_lattice.2.2.1 sample_env sample_struct "ratio" .int64 (.bits 0) 0 (by decide)
     (Or.inl (by decide)),
   (get_float_lattice.2.2.2 sample_env sample_struct "u8" .uint8 (.bits 0) 0 (by decide)
     (by decide)).2⟩

/-! ## Facts about the Struct contract -/

theorem Struct.type_of_set (s : Struct) (key : String) (v : Value) (k : String) :
    (s.set key v).type_of k = s.type_of k := by
  induction s with
  | nil => rfl
  | field name type elems ser rest ih =>
    simp only [Struct.set]
    split_ifs with h <;> simp only [Struct.type_of, ih]
  | nested name count child ser rest _ ih =>
    simp only [Struct.set]
    split_ifs with h <;> simp only [Struct.type_of, ih]

theorem Struct.get_set_same (s : Struct) (key : String) (v : Value) :
    (s.set key v).get key = (s.get key).set 0 v := by
  induction s with
  | nil => rfl
  | field name type elems ser rest ih =>
    simp only [Struct.set]
    split_ifs with h <;> simp [Struct.get, ih, h]
  | nested name count child ser rest _ ih =>
    simp only [Struct.set]
    split_ifs with h <;> simp [Struct.get, ih, h]

theorem Struct.get_set_other (s : Struct) (key : String) (v : Value) (k : String)
    (hk : k ≠ key) : (s.set key v).get k = s.get k := by
  induction s with
  | nil => rfl
  | field name type elems ser rest ih =>
    simp only [Struct.set]
    split_ifs with h
    · subst h
      simp [Struct.get, Ne.symm hk]
    · simp only [Struct.get, ih]
  | nested name count child ser rest _ ih =>
    simp only [Struct.set]
    split_ifs with h <;> simp only [Struct.get, ih]

theorem Struct.count_of_eq_length (s : Struct) (key : String) (t : TypeId)
    (h : s.type_of key = some (typeid t)) : s.count_of key = (s.get key).length := by
  induction s with
  | nil => rfl
  | field name type elems ser rest ih =>
    simp only [Struct.type_of, Struct.count_of, Struct.get] at h ⊢
    split_ifs at h ⊢ with h1
    · rfl
    · exact ih h
  | nested name count child ser rest _ ih =>
    simp only [Struct.type_of, Struct.count_of, Struct.get] at h ⊢
    split_ifs at h ⊢ with h1
    · simp at h
    · exact ih h

theorem Struct.type_of_eq_none_iff (s : Struct) (key : String) :
    s.type_of key = none ↔ key ∉ s.all_keys := by
  induction s with
  | nil => simp [Struct.type_of, Struct.all_keys]
  | field name type elems ser rest ih =>
    simp only [Struct.type_of, Struct.all_keys, List.mem_cons, not_or]
    split_ifs with h
    · simp [h]
    · rw [ih]
      constructor
      · intro h2
        exact ⟨fun h3 => h h3.symm, h2⟩
      · intro h2
        exact h2.2
  | nested name count child ser rest _ ih =>
    simp only [Struct.type_of, Struct.all_keys, List.mem_cons, not_or]
    split_ifs with h
    · simp [h]
    · rw [ih]
      constructor
      · intro h2
        exact ⟨fun h3 => h h3.symm, h2⟩
      · intro h2
        exact h2.2

/-- Writing to a name the struct does not have changes nothing. -/
theorem Struct.set_absent (s : Struct) (key : String) (v : Value)
    (h : s.type_of key = none) : s.set key v = s := by
  induction s with
  | nil => rfl
  | field name type elems ser rest ih =>
    simp only [Struct.type_of] at h
    split_ifs at h with h1
    simp only [Struct.set, if_neg h1, ih h]
  | nested name count child ser rest _ ih =>
    simp only [Struct.type_of] at h
    split_ifs at h with h1
    simp only [Struct.set, if_neg h1, ih h]

theorem getD_set_zero (l : List Value) (v d : Value) (h : 0 < l.length) :
    (l.set 0 v).getD 0 d = v := by
  cases l with
  | nil => simp at h
  | cons a t => simp

theorem of_bits_to_bits_int32 (v : Int) (h1 : -2 ^ 31 ≤ v) (h2 : v < 2 ^ 31) :
    of_bits .int32 (to_bits .int32 v) = v := by
  simp only [to_bits, of_bits, sizeof, std_is_signed, reduceCtorEq, if_false,
    Bool.true_and, decide_eq_true_eq, Nat.reducePow, Nat.reduceMul,
    Nat.reduceSub, Int.reducePow] at *
  omega

theorem of_bits_to_bits_int64 (v : Int) (h1 : -2 ^ 63 ≤ v) (h2 : v < 2 ^ 63) :
    of_bits .int64 (to_bits .int64 v) = v := by
  simp only [to_bits, of_bits, sizeof, std_is_signed, reduceCtorEq, if_false,
    Bool.true_and, decide_eq_true_eq, Nat.reducePow, Nat.reduceMul,
    Nat.reduceSub, Int.reducePow] at *
  omega

/-- The enum branch of get: an int-sized integer read of a registered enum
field copies from the start of the field. -/
theorem get_enum_field (env : Env) (s : Struct) (name : String)
    (T : TypeId) (t : type_info) (value : Value) (offset : Nat)
    (hty : s.type_of name = some t) (hreg : Enum.name env t ≠ "")
    (hT : T = .int32 ∨ T = .uint32) :
    Reflection.get env T s name value offset = (true, (s.get name).getD 0 (.bits 0)) := by
  have hne : t ≠ typeid T := by
    intro h
    apply hreg
    rw [h]
    rcases hT with rfl | rfl <;> simp [Enum.name, Env.entry]
  have hemp : (Enum.name env t).isEmpty = false := (isEmpty_eq_false_iff _).2 hreg
  rcases hT with rfl | rfl <;>
  simp [Reflection.get, hty, hne, hemp, std_is_integral, sizeof]

/-- C4: on a field whose type is a registered enum, get of int returns true
and copies element 0 of the field, whatever index is asked for, where the
specification has the ordinal stored in element index. -/
theorem get_enum_reads_first_element (env : Env) (s : Struct) (name : String)
    (t : type_info) (value : Value) (offset : Nat)
    (hty : s.type_of name = some t) (hreg : Enum.name env t ≠ "") :
    Reflection.get env .int32 s name value offset =
      (true, (s.get name).getD 0 (.bits 0)) :=
  get_enum_field env s name .int32 t value offset hty hreg (Or.inl rfl)

theorem get_enum_reads_first_element_witness :
    Reflection.get sample_env .int32 sample_struct "mode" (.bits 9) 1 = (true, .bits 0) ∧
    (sample_struct.get "mode").getD 1 (.bits 0) = .bits 2 ∧
    sample_struct.count_of "mode" = 2 :=
  ⟨get_enum_reads_first_element sample_env sample_struct "mode" (typeid (.other 7))
    (.bits 9) 1 (by decide) (by decide), by decide, by decide⟩

/-! ## Claims about set -/

/-- C5: set with a bool value returns false on every path, also after it has
written the value into a bool field, where the specification has it return
true; the written value is what get of bool then yields. -/
theorem set_bool_returns_false :
    (∀ (target : Struct) (name : String) (value : Bool),
      (Reflection.set_bool target name value).1 = false) ∧
    Reflection.set_bool sample_struct "flag" true =
      (false, sample_struct.set "flag" (.bits 1)) ∧
    Reflection.get sample_env .bool (Reflection.set_bool sample_struct "flag" true).2
      "flag" (.bits 0) 0 = (true, .bits 1) := by
  refine ⟨?_, by decide, by decide⟩
  intro target name value
  unfold Reflection.set_bool
  cases target.type_of name <;> rfl

/-- C6: for a 32-bit int v and a field with at least one element whose type is
int, int64_t or a registered enum, set returns true and a following get of the
field-s own integer type returns true with a value numerically equal to v. -/
theorem set_int_get_roundtrip (env : Env) (s : Struct) (name : String) (v : Int)
    (t : type_info) (value : Value)
    (hlo : -2 ^ 31 ≤ v) (hhi : v < 2 ^ 31)
    (hty : s.type_of name = some t)
    (hkind : t = typeid .int32 ∨ t = typeid .int64 ∨ Enum.name env t ≠ "")
    (hcount : 0 < s.count_of name) :
    (Reflection.set_int env s name v).1 = true ∧
    (Reflection.get env (if t = typeid .int64 then .int64 else .int32)
      (Reflection.set_int env s name v).2 name value 0).1 = true ∧
    of_bits (if t = typeid .int64 then .int64 else .int32)
      (Reflection.get env (if t = typeid .int64 then .int64 else .int32)
        (Reflection.set_int env s name v).2 name value 0).2.raw = v := by
  have hlen : 0 < (s.get name).length := by
    rcases t with t | _
    · rw [← Struct.count_of_eq_length s name t hty]
      exact hcount
    · rcases hkind with h | h | h
      · simp at h
      · simp at h
      · simp [Enum.name, Env.entry] at h
  rcases hkind with h | h | h
  · subst h
    have hset : Reflection.set_int env s name v =
        (true, s.set name (.bits (to_bits .int32 v))) := by
      simp [Reflection.set_int, hty]
    rw [hset]
    have hget : Reflection.get env .int32 (s.set name (.bits (to_bits .int32 v))) name value 0
        = (true, .bits (to_bits .int32 v)) := by
      simp only [Reflection.get, Struct.type_of_set, hty, Struct.get_set_same,
        getD_set_zero _ _ _ hlen, if_true]
    simp only [reduceCtorEq, type_info.of.injEq, if_false, hget, Value.raw, true_and]
    exact of_bits_to_bits_int32 v hlo hhi
  · subst h
    have hset : Reflection.set_int env s name v =
        (true, s.set name (.bits (to_bits .int64 v))) := by
      simp [Reflection.set_int, hty, Enum.name, Env.entry, isEmpty_empty]
    rw [hset]
    have hget : Reflection.get env .int64 (s.set name (.bits (to_bits .int64 v))) name value 0
        = (true, .bits (to_bits .int64 v)) := by
      simp only [Reflection.get, Struct.type_of_set, hty, Struct.get_set_same,
        getD_set_zero _ _ _ hlen, if_true]
    simp only [if_true, hget, Value.raw, true_and]
    exact of_bits_to_bits_int64 v (by omega) (by omega)
  · have hemp : (Enum.name env t).isEmpty = false := (isEmpty_eq_false_iff _).2 h
    have hne : t ≠ typeid .int64 := by
      intro h2
      apply h
      rw [h2]
      simp [Enum.name, Env.entry]
    have hset : Reflection.set_int env s name v =
        (true, s.set name (.bits (to_bits .int32 v))) := by
      simp [Reflection.set_int, hty, hemp]
    rw [hset, if_neg hne]
    have hget : Reflection.get env .int32 (s.set name (.bits (to_bits .int32 v))) name value 0
        = (true, .bits (to_bits .int32 v)) := by
      rw [get_enum_field env _ name .int32 t value 0
        (by rw [Struct.type_of_set]; exact hty) h (Or.inl rfl)]
      rw [Struct.get_set_same, getD_set_zero _ _ _ hlen]
    simp only [hget, Value.raw, true_and]
    exact of_bits_to_bits_int32 v hlo hhi

theorem set_int_get_roundtrip_witness :
    (Reflection.set_int sample_env sample_struct "big" (-5)).1 = true ∧
    (Reflection.get sample_env .int64
      (Reflection.set_int sample_env sample_struct "big" (-5)).2 "big" (.bits 0) 0).1 = true ∧
    of_bits .int64 (Reflection.get sample_env .int64
      (Reflection.set_int sample_env sample_struct "big" (-5)).2 "big" (.bits 0) 0).2.raw
      = -5 :=
  set_int_get_roundtrip sample_env sample_struct "big" (-5) (typeid .int64) (.bits 0)
    (by decide) (by decide) (by decide) (Or.inr (Or.inl rfl)) (by decide)

/-! ## Facts about the enum registry -/

theorem Enum.from_string_eq (env : Env) (t : type_info) (str : String) :
    Enum.from_string env t str =
      if str ∈ Enum.all_values env t then ((Enum.all_values env t).indexOf str : Int)
      else -1 := by
  unfold Enum.from_string Enum.all_values
  cases env.entry t <;> simp

theorem Enum.from_string_neg_iff (env : Env) (t : type_info) (str : String) :
    Enum.from_string env t str < 0 ↔ str ∉ Enum.all_values env t := by
  rw [Enum.from_string_eq]
  split_ifs with h
  · simp [h]
  · simp [h]

theorem to_bits_int32_of_nat (n : Nat) (h : n < 2 ^ 32) : to_bits .int32 (n : Int) = n := by
  simp only [to_bits, sizeof, reduceCtorEq, if_false, Nat.reducePow, Nat.reduceMul,
    Int.reducePow] at *
  omega

/-- C7: set with a string returns true exactly when the field exists, its type
is a registered enum and the string is one of the registered names; the field
then holds the index of the string in the ordered name list; a failed call
leaves the struct as it was; with the names Off, Low, High, setting Low and
reading the field as int yields 1. -/
theorem set_string_spec :
    (∀ (env : Env) (s : Struct) (name str : String),
      (Reflection.set_string env s name str).1 = true ↔
        ∃ t, s.type_of name = some t ∧ Enum.name env t ≠ "" ∧
          str ∈ Enum.all_values env t) ∧
    (∀ (env : Env) (s : Struct) (name str : String) (t : type_info) (value : Value),
      s.type_of name = some t → Enum.name env t ≠ "" → str ∈ Enum.all_values env t →
      (Enum.all_values env t).length < 2 ^ 31 → 0 < s.count_of name →
      ((Reflection.set_string env s name str).2.get name).getD 0 (.bits 0) =
        .bits ((Enum.all_values env t).indexOf str) ∧
      Reflection.get env .int32 (Reflection.set_string env s name str).2 name value 0 =
        (true, .bits ((Enum.all_values env t).indexOf str))) ∧
    (∀ (env : Env) (s : Struct) (name str : String),
      (Reflection.set_string env s name str).1 = false →
      (Reflection.set_string env s name str).2 = s) ∧
    (∀ (env : Env) (s : Struct) (t : type_info) (value : Value),
      s.type_of "mode" = some t → Enum.name env t ≠ "" →
      Enum.all_values env t = ["Off", "Low", "High"] → 0 < s.count_of "mode" →
      (Reflection.set_string env s "mode" "Low").1 = true ∧
      Reflection.get env .int32 (Reflection.set_string env s "mode" "Low").2 "mode" value 0 =
        (true, .bits 1)) := by
  have key : ∀ (env : Env) (s : Struct) (name str : String) (t : type_info),
      s.type_of name = some t → Enum.name env t ≠ "" → str ∈ Enum.all_values env t →
      Reflection.set_string env s name str =
        (true, s.set name (.bits (to_bits .int32 ((Enum.all_values env t).indexOf str : Int)))) := by
    intro env s name str t hty hreg hmem
    have hemp : (Enum.name env t).isEmpty = false := (isEmpty_eq_false_iff _).2 hreg
    have hnn : ¬ Enum.from_string env t str < 0 := by
      rw [Enum.from_string_neg_iff]
      exact fun h => h hmem
    simp only [Reflection.set_string, hty, hemp, hnn, if_false, Bool.false_eq_true]
    rw [Enum.from_string_eq, if_pos hmem]
  have part2 : ∀ (env : Env) (s : Struct) (name str : String) (t : type_info) (value : Value),
      s.type_of name = some t → Enum.name env t ≠ "" → str ∈ Enum.all_values env t →
      (Enum.all_values env t).length < 2 ^ 31 → 0 < s.count_of name →
      ((Reflection.set_string env s name str).2.get name).getD 0 (.bits 0) =
        .bits ((Enum.all_values env t).indexOf str) ∧
      Reflection.get env .int32 (Reflection.set_string env s name str).2 name value 0 =
        (true, .bits ((Enum.all_values env t).indexOf str)) := by
    intro env s name str t value hty hreg hmem hlen hcount
    have hidx : (Enum.all_values env t).indexOf str < 2 ^ 32 := by
      have := List.indexOf_lt_length.2 hmem
      omega
    have hlen2 : 0 < (s.get name).length := by
      rcases t with t | _
      · rw [← Struct.count_of_eq_length s name t hty]
        exact hcount
      · simp [Enum.name, Env.entry] at hreg
    rw [key env s name str t hty hreg hmem, to_bits_int32_of_nat _ hidx]
    have h1 : ((s.set name (.bits ((Enum.all_values env t).indexOf str))).get name).getD 0
        (.bits 0) = .bits ((Enum.all_values env t).indexOf str) := by
      rw [Struct.get_set_same, getD_set_zero _ _ _ hlen2]
    refine ⟨h1, ?_⟩
    rw [get_enum_field env _ name .int32 t value 0
      (by rw [Struct.type_of_set]; exact hty) hreg (Or.inl rfl), h1]
  refine ⟨?_, part2, ?_, ?_⟩
  · intro env s name str
    constructor
    · intro h
      unfold Reflection.set_string at h
      cases hty : s.type_of name with
      | none => simp [hty] at h
      | some t =>
        refine ⟨t, rfl, ?_, ?_⟩
        · intro hn
          simp [hty, hn, isEmpty_empty] at h
        · by_contra hmem
          have := (Enum.from_string_neg_iff env t str).2 hmem
          simp only [hty] at h
          split_ifs at h
    · rintro ⟨t, hty, hreg, hmem⟩
      rw [key env s name str t hty hreg hmem]
  · intro env s name str h
    unfold Reflection.set_string at h ⊢
    cases hty : s.type_of name with
    | none => simp
    | some t =>
      simp only [hty] at h ⊢
      split_ifs at h ⊢
      all_goals rfl
  · intro env s t value hty hreg hvals hcount
    have hmem : "Low" ∈ Enum.all_values env t := by rw [hvals]; decide
    have h2 := part2 env s "mode" "Low" t value hty hreg hmem (by rw [hvals]; decide) hcount
    have hidx : (Enum.all_values env t).indexOf "Low" = 1 := by rw [hvals]; decide
    rw [hidx] at h2
    refine ⟨?_, h2.2⟩
    rw [key env s "mode" "Low" t hty hreg hmem]

theorem set_string_spec_witness :
    (Reflection.set_string sample_env sample_struct "mode" "Low").1 = true ∧
    Reflection.get sample_env .int32
      (Reflection.set_string sample_env sample_struct "mode" "Low").2 "mode" (.bits 9) 0 =
        (true, .bits 1) :=
  set_string_spec.2.2.2 sample_env sample_struct (typeid (.other 7)) (.bits 9)
    (by decide) (by decide) (by decide) (by decide)

/-- C9: for a name that is not a field of the struct, get of every type, set
with an int, a string, a C string or a bool, and fuzzy_set all return false;
the struct is unchanged, the output argument of get is unmodified, and the
value-returning get yields the zero value of the type. -/
theorem unknown_field_fails (env : Env) (s : Struct) (name : String)
    (h : name ∉ s.all_keys) :
    (∀ (T : TypeId) (value : Value) (offset : Nat),
      Reflection.get env T s name value offset = (false, value)) ∧
    (∀ v : Int, Reflection.set_int env s name v = (false, s)) ∧
    (∀ str : String, Reflection.set_string env s name str = (false, s)) ∧
    (∀ str : String, Reflection.set_c_str env s name str = (false, s)) ∧
    (∀ b : Bool, Reflection.set_bool s name b = (false, s)) ∧
    (∀ str : String, Reflection.fuzzy_set env s name str = (false, s)) ∧
    (∀ (T : TypeId) (offset : Nat),
      Reflection.get_value env T s name offset = zero_value T) := by
  have hty : s.type_of name = none := (Struct.type_of_eq_none_iff s name).2 h
  refine ⟨?_, ?_, ?_, ?_, ?_, ?_, ?_⟩
  · intro T value offset
    simp only [Reflection.get, hty]
  · intro v
    simp only [Reflection.set_int, hty]
  · intro str
    simp only [Reflection.set_string, hty]
  · intro str
    simp only [Reflection.set_c_str, Reflection.set_string, hty]
  · intro b
    simp only [Reflection.set_bool, hty]
  · intro str
    simp only [Reflection.fuzzy_set, hty]
  · intro T offset
    simp only [Reflection.get_value, Reflection.get, hty]

theorem unknown_field_fails_witness :
    Reflection.get sample_env .int32 sample_struct "absent" (.bits 9) 0 = (false, .bits 9) ∧
    Reflection.fuzzy_set sample_env sample_struct "absent" "Low" = (false, sample_struct) :=
  ⟨(unknown_field_fails sample_env sample_struct "absent" (by decide)).1 .int32 (.bits 9) 0,
   (unknown_field_fails sample_env sample_struct "absent" (by decide)).2.2.2.2.2.1 "Low"⟩

/-! ## Claims about serialise -/

/-- The framing wrap_object produces: four length bytes, the data, a 0. -/
theorem wrap_object_eq (data : List Nat) :
    Struct.serialise.wrap_object data =
      [((data.length + 1) % 2 ^ 32 + 4) % 2 ^ 32 % 256,
       ((data.length + 1) % 2 ^ 32 + 4) % 2 ^ 32 / 2 ^ 8 % 256,
       ((data.length + 1) % 2 ^ 32 + 4) % 2 ^ 32 / 2 ^ 16 % 256,
       ((data.length + 1) % 2 ^ 32 + 4) % 2 ^ 32 / 2 ^ 24 % 256] ++ data ++ [0] := by
  simp [Struct.serialise.wrap_object]

theorem wrap_object_framed (data : List Nat)
    (h : (Struct.serialise.wrap_object data).length < 2 ^ 32) :
    5 ≤ (Struct.serialise.wrap_object data).length ∧
    read_le32 (Struct.serialise.wrap_object data) = (Struct.serialise.wrap_object data).length ∧
    (Struct.serialise.wrap_object data).getLast? = some 0 := by
  rw [wrap_object_eq] at h ⊢
  refine ⟨?_, ?_, List.getLast?_concat _⟩
  · simp only [List.length_append, List.length_cons, List.length_nil]
    omega
  · simp only [List.length_append, List.length_cons, List.length_nil] at h ⊢
    simp only [read_le32, List.cons_append, List.getD_cons_zero, List.getD_cons_succ]
    norm_num at h ⊢
    omega

theorem serialise_loop_skip (env : Env) (s : Struct) (result : List Nat)
    (h : s.serialisable_keys = []) : Struct.serialise_loop env s result = some result := by
  induction s with
  | nil => rfl
  | field name type elems ser rest ih =>
    cases ser with
    | true => simp [Struct.serialisable_keys] at h
    | false =>
      simp only [Struct.serialisable_keys] at h
      simp only [Struct.serialise_loop]
      exact ih (by simpa using h)
  | nested name count child ser rest _ ih =>
    cases ser with
    | true => simp [Struct.serialisable_keys] at h
    | false =>
      simp only [Struct.serialisable_keys] at h
      simp only [Struct.serialise_loop]
      exact ih (by simpa using h)

/-- C10: when serialise completes with fewer than 2^32 bytes, the output has
at least 5 bytes, its first four bytes read little-endian equal its length and
its last byte is 0; the same holds for the embedded document of an array
field; a struct with no serialisable field serialises to 05 00 00 00 00. -/
theorem serialise_framing :
    (∀ (env : Env) (s : Struct) (out : List Nat),
      s.serialise env = some out → out.length < 2 ^ 32 →
      5 ≤ out.length ∧ read_le32 out = out.length ∧ out.getLast? = some 0) ∧
    (∀ (env : Env) (this : Struct) (key : String) (type : type_info) (count : Nat)
        (sub_document : Option (List Nat)) (array : List Nat),
      Struct.serialise.array_document env this key type count sub_document = some array →
      array.length < 2 ^ 32 →
      5 ≤ array.length ∧ read_le32 array = array.length ∧ array.getLast? = some 0) ∧
    (∀ (env : Env) (s : Struct),
      s.serialisable_keys = [] → s.serialise env = some [5, 0, 0, 0, 0]) := by
  refine ⟨?_, ?_, ?_⟩
  · intro env s out h hlen
    unfold Struct.serialise at h
    cases hl : Struct.serialise_loop env s [] with
    | none => simp [hl] at h
    | some data =>
      simp only [hl, Option.map_some', Option.some.injEq] at h
      subst h
      exact wrap_object_framed data hlen
  · intro env this key type count sub array h hlen
    unfold Struct.serialise.array_document at h
    split at h
    · simp only [Option.some.injEq] at h
      subst h
      exact wrap_object_framed _ hlen
    · simp at h
  · intro env s h
    unfold Struct.serialise
    rw [serialise_loop_skip env s [] h]
    rfl

theorem serialise_framing_witness :
    (Struct.field "x" .int32 [.bits 1, .bits 4294967295] true .nil).serialise sample_env =
      some [27, 0, 0, 0, 3, 120, 0, 19, 0, 0, 0, 16, 48, 0, 1, 0, 0, 0, 16, 49,
        0, 255, 255, 255, 255, 0, 0] ∧
    (5 ≤ [27, 0, 0, 0, 3, 120, 0, 19, 0, 0, 0, 16, 48, 0, 1, 0, 0, 0, 16, 49,
        0, 255, 255, 255, 255, 0, 0].length ∧
      read_le32 [27, 0, 0, 0, 3, 120, 0, 19, 0, 0, 0, 16, 48, 0, 1, 0, 0, 0, 16, 49,
        0, 255, 255, 255, 255, 0, 0] =
        [27, 0, 0, 0, 3, 120, 0, 19, 0, 0, 0, 16, 48, 0, 1, 0, 0, 0, 16, 49,
          0, 255, 255, 255, 255, 0, 0].length ∧
      [27, 0, 0, 0, 3, 120, 0, 19, 0, 0, 0, 16, 48, 0, 1, 0, 0, 0, 16, 49,
        0, 255, 255, 255, 255, 0, 0].getLast? = some 0) ∧
    (Struct.field "n" .int32 [.bits 5] false .nil).serialise sample_env = some [5, 0, 0, 0, 0] :=
  ⟨by decide,
   serialise_framing.1 sample_env
      (.field "x" .int32 [.bits 1, .bits 4294967295] true .nil)
      [27, 0, 0, 0, 3, 120, 0, 19, 0, 0, 0, 16, 48, 0, 1, 0, 0, 0, 16, 49,
        0, 255, 255, 255, 255, 0, 0] (by decide) (by decide),
   serialise_framing.2.2 sample_env (.field "n" .int32 [.bits 5] false .nil) (by decide)⟩

/-! ## Claims about fuzzy_set -/

/-- On a value without NUL characters the loop of the comparison lambda
decides equality ignoring case. -/
theorem fuzzy_loop_eq (v e : List Char) (hlen : v.length = e.length)
    (hnul : ∀ c ∈ v, c.toNat ≠ 0) :
    Reflection.fuzzy_loop (v ++ [Char.ofNat 0]) (e ++ [Char.ofNat 0]) =
      decide (v.map Reflection.tolower = e.map Reflection.tolower) := by
  induction v generalizing e with
  | nil =>
    cases e with
    | nil => simp [Reflection.fuzzy_loop]
    | cons d es => simp at hlen
  | cons c vs ih =>
    cases e with
    | nil => simp at hlen
    | cons d es =>
      have hc : c.toNat ≠ 0 := hnul c (List.mem_cons_self _ _)
      have hrest := ih es (by simpa using hlen) (fun x hx => hnul x (List.mem_cons_of_mem _ hx))
      simp only [List.cons_append, Reflection.fuzzy_loop, hc, if_false, List.headD_cons,
        List.tail_cons, hrest, List.map_cons, List.cons.injEq]
      by_cases h : Reflection.tolower c = Reflection.tolower d <;> simp [h, hrest]

theorem fuzzy_compare_eq_spec (value entry : String) (hnul : ∀ c ∈ value.data, c.toNat ≠ 0) :
    Reflection.fuzzy_compare value entry = spec_equal_ignoring_case value entry := by
  unfold Reflection.fuzzy_compare spec_equal_ignoring_case Reflection.c_str
  by_cases hlen : value.length = entry.length
  · rw [if_neg (by simpa using hlen), fuzzy_loop_eq _ _ hlen hnul]
    by_cases h : value.data.map Reflection.tolower = entry.data.map Reflection.tolower
    · rw [h]
      simp
    · rw [decide_eq_false h]
      symm
      rw [beq_eq_false_iff_ne]
      exact h
  · rw [if_pos hlen]
    symm
    rw [beq_eq_false_iff_ne]
    intro h
    apply hlen
    have := congrArg List.length h
    simpa using this

theorem Enum.size_eq_length (env : Env) (t : type_info) :
    Enum.size env t = (Enum.all_values env t).length := by
  unfold Enum.size Enum.all_values
  cases env.entry t <;> rfl

/-- The behaviour of fuzzy_set on a value without NUL characters: it succeeds
exactly when some registered name equals the value ignoring case, and then
stores the index of the exact match when there is one, otherwise the smallest
index of a name that matches ignoring case; a failed call changes nothing. -/
theorem fuzzy_set_of_nul_free (env : Env) (s : Struct) (name v : String) (t : type_info)
    (hty : s.type_of name = some t) (hnul : ∀ c ∈ v.data, c.toNat ≠ 0) :
    ((Reflection.fuzzy_set env s name v).1 = true ↔
      ∃ n ∈ Enum.all_values env t, spec_equal_ignoring_case v n = true) ∧
    ((Reflection.fuzzy_set env s name v).1 = true →
      (Reflection.fuzzy_set env s name v).2 =
        s.set name (.bits (to_bits .int32
          ((if v ∈ Enum.all_values env t then (Enum.all_values env t).indexOf v
            else (Enum.all_values env t).findIdx (spec_equal_ignoring_case v) : Nat) : Int)))) ∧
    ((Reflection.fuzzy_set env s name v).1 = false →
      (Reflection.fuzzy_set env s name v).2 = s) := by
  have hfun : Reflection.fuzzy_compare v = spec_equal_ignoring_case v :=
    funext (fun e => fuzzy_compare_eq_spec v e hnul)
  by_cases hmem : v ∈ Enum.all_values env t
  · have hN : (Enum.all_values env t).length ≠ 0 := by
      intro h
      rw [List.length_eq_zero.1 h] at hmem
      simp at hmem
    have hge : Enum.from_string env t v ≥ 0 := by
      have := (Enum.from_string_neg_iff env t v).not.2 (fun h => h hmem)
      omega
    have hval : Reflection.fuzzy_set env s name v =
        (true, s.set name (.bits (to_bits .int32 ((Enum.all_values env t).indexOf v : Int)))) := by
      simp only [Reflection.fuzzy_set, hty, Enum.size_eq_length, ne_eq, hN, not_false_eq_true,
        if_true, hge]
      rw [Enum.from_string_eq, if_pos hmem]
    rw [hval, if_pos hmem]
    refine ⟨?_, fun _ => rfl, ?_⟩
    · simp only [true_iff]
      exact ⟨v, hmem, by simp [spec_equal_ignoring_case]⟩
    · intro h
      simp at h
  · have hlt : ¬ Enum.from_string env t v ≥ 0 := by
      have := (Enum.from_string_neg_iff env t v).2 hmem
      omega
    rw [if_neg hmem]
    by_cases hex : ∃ n ∈ Enum.all_values env t, spec_equal_ignoring_case v n = true
    · have h1 := List.findIdx_lt_length_of_exists hex
      have h2 : List.findIdx (spec_equal_ignoring_case v) (Enum.all_values env t) ≠
          (Enum.all_values env t).length := by omega
      have hN : (Enum.all_values env t).length ≠ 0 := by omega
      have hval : Reflection.fuzzy_set env s name v =
          (true, s.set name (.bits (to_bits .int32
            ((Enum.all_values env t).findIdx (spec_equal_ignoring_case v) : Int)))) := by
        simp only [Reflection.fuzzy_set, hty, Enum.size_eq_length, ne_eq, hN,
          not_false_eq_true, if_true, hlt, if_false, hfun, h2]
      rw [hval]
      refine ⟨?_, fun _ => rfl, ?_⟩
      · simp only [true_iff]
        exact hex
      · intro h
        simp at h
    · have h2 : List.findIdx (spec_equal_ignoring_case v) (Enum.all_values env t) =
          (Enum.all_values env t).length := by
        apply List.findIdx_eq_length.2
        intro x hx
        by_contra hc
        exact hex ⟨x, hx, by simpa using hc⟩
      have hval : Reflection.fuzzy_set env s name v = (false, s) := by
        simp only [Reflection.fuzzy_set, hty, hlt, if_false, hfun, h2, ne_eq,
          not_true_eq_false, ite_self]
      rw [hval]
      refine ⟨?_, ?_, fun _ => rfl⟩
      · simp only [Bool.false_eq_true, false_iff]
        exact hex
      · intro h
        simp at h

theorem fuzzy_set_of_nul_free_sample :
    (Reflection.fuzzy_set sample_env sample_struct "mode" "LOW").1 = true ↔
      ∃ n ∈ Enum.all_values sample_env (typeid (.other 7)),
        spec_equal_ignoring_case "LOW" n = true :=
  (fuzzy_set_of_nul_free sample_env sample_struct "mode" "LOW" (typeid (.other 7))
    (by decide) (by decide)).1

/-- C8: for the names Off, Low, High, fuzzy_set of the three-character value
L, NUL, x returns true and stores 1, although no name equals that value
ignoring case: the comparison loop runs until the first NUL of the value.
fuzzy_set of LOW stores 1, fuzzy_set of Medium returns false, and on a field
whose type is not in the registry fuzzy_set returns false. -/
theorem fuzzy_set_embedded_nul :
    Reflection.fuzzy_set sample_env sample_struct "mode" sample_nul_value =
      (true, sample_struct.set "mode" (.bits 1)) ∧
    (¬ ∃ n ∈ Enum.all_values sample_env (typeid (.other 7)),
      spec_equal_ignoring_case sample_nul_value n = true) ∧
    Reflection.fuzzy_set sample_env sample_struct "mode" "LOW" =
      (true, sample_struct.set "mode" (.bits 1)) ∧
    Reflection.fuzzy_set sample_env sample_struct "mode" "Medium" = (false, sample_struct) ∧
    (∀ (env : Env) (s : Struct) (name v : String) (t : type_info),
      s.type_of name = some t → env.entry t = none →
      Reflection.fuzzy_set env s name v = (false, s)) := by
  refine ⟨by decide, by decide, by decide, by decide, ?_⟩
  intro env s name v t hty hent
  simp [Reflection.fuzzy_set, hty, Enum.size, hent]

/-! ## The serialiser appends -/

/-- The lambda append only ever pushes onto the vector it is given. -/
theorem append_result (env : Env) (result : List Nat) (this : Struct)
    (key output_name : String) (type : type_info) (offset : Nat)
    (sub_document : Option (List Nat)) :
    Struct.serialise.append env result this key output_name type offset sub_document =
      (Struct.serialise.append env [] this key output_name type offset sub_document).map
        (fun bytes => result ++ bytes) := by
  unfold Struct.serialise.append
  simp only [Struct.serialise.push_name, Struct.serialise.push_int,
    Struct.serialise.push_string]
  split_ifs <;> cases sub_document <;> simp

theorem element_result (env : Env) (result : List Nat) (this : Struct)
    (key : String) (type : type_info) (count : Nat) (sub_document : Option (List Nat)) :
    Struct.serialise.element env result this key type count sub_document =
      (Struct.serialise.element env [] this key type count sub_document).map
        (fun bytes => result ++ bytes) := by
  unfold Struct.serialise.element
  split_ifs
  · cases Struct.serialise.array_document env this key type count sub_document <;>
      simp [Struct.serialise.push_name]
  · exact append_result env result this key key type 0 sub_document

theorem serialise_loop_result (env : Env) (s : Struct) (result : List Nat) :
    Struct.serialise_loop env s result =
      (Struct.serialise_loop env s []).map (fun bytes => result ++ bytes) := by
  induction s generalizing result with
  | nil => simp [Struct.serialise_loop]
  | field name type elems ser rest ih =>
    simp only [Struct.serialise_loop]
    split_ifs
    · exact ih result
    · rw [element_result env result]
      cases Struct.serialise.element env [] (Struct.field name type elems ser Struct.nil)
        name (typeid type) elems.length none with
      | none => simp
      | some e =>
        simp only [Option.map_some']
        rw [ih (result ++ e), ih e]
        cases Struct.serialise_loop env rest [] <;> simp
  | nested name count child ser rest _ ih =>
    simp only [Struct.serialise_loop]
    split_ifs
    · exact ih result
    · rw [element_result env result]
      cases Struct.serialise.element env [] (Struct.nested name count child ser Struct.nil)
        name type_info.Struct count
        (Option.map Struct.serialise.wrap_object (Struct.serialise_loop env child [])) with
      | none => simp
      | some e =>
        simp only [Option.map_some']
        rw [ih (result ++ e), ih e]
        cases Struct.serialise_loop env rest [] <;> simp

/-- The loop of serialise over a struct is its first field encoded on its own
followed by the loop over the remaining fields. -/
theorem serialise_loop_cons (env : Env) (s : Struct) :
    (∀ name type elems ser rest, s = Struct.field name type elems ser rest →
      Struct.serialise_loop env s [] =
        if ser then
          match s.encoded_field env, Struct.serialise_loop env rest [] with
          | some e, some r => some (e ++ r)
          | _, _ => none
        else Struct.serialise_loop env rest []) ∧
    (∀ name count child ser rest, s = Struct.nested name count child ser rest →
      Struct.serialise_loop env s [] =
        if ser then
          match s.encoded_field env, Struct.serialise_loop env rest [] with
          | some e, some r => some (e ++ r)
          | _, _ => none
        else Struct.serialise_loop env rest []) := by
  constructor
  · intro name type elems ser rest hs
    subst hs
    cases ser with
    | false => simp [Struct.serialise_loop]
    | true =>
      simp only [Struct.serialise_loop, Struct.encoded_field, Bool.not_true,
        Bool.false_eq_true, if_false, if_true]
      cases Struct.serialise.element env [] (Struct.field name type elems true Struct.nil)
        name (typeid type) elems.length none with
      | none => simp
      | some e =>
        simp only []
        rw [serialise_loop_result env rest e]
        cases Struct.serialise_loop env rest [] <;> simp
  · intro name count child ser rest hs
    subst hs
    cases ser with
    | false => simp [Struct.serialise_loop]
    | true =>
      simp only [Struct.serialise_loop, Struct.encoded_field, Struct.serialise, Bool.not_true,
        Bool.false_eq_true, if_false, if_true]
      cases Struct.serialise.element env [] (Struct.nested name count child true Struct.nil)
        name type_info.Struct count
        (Option.map Struct.serialise.wrap_object (Struct.serialise_loop env child [])) with
      | none => simp
      | some e =>
        simp only []
        rw [serialise_loop_result env rest e]
        cases Struct.serialise_loop env rest [] <;> simp

theorem concat_elements_congr (f g : String → Option (List Nat)) (keys : List String)
    (h : ∀ k ∈ keys, f k = g k) : concat_elements f keys = concat_elements g keys := by
  induction keys with
  | nil => rfl
  | cons k ks ih =>
    simp only [concat_elements]
    rw [h k (List.mem_cons_self _ _), ih (fun x hx => h x (List.mem_cons_of_mem _ hx))]

theorem spec_serialise_body_cons (env : Env) (s rest : Struct) (name : String) (ser : Bool)
    (hkeys : s.all_keys = name :: rest.all_keys)
    (hser : s.should_serialise name = ser)
    (hfrom : s.from_key name = s)
    (hrest : ∀ k, k ≠ name → s.should_serialise k = rest.should_serialise k ∧
      s.from_key k = rest.from_key k)
    (hnd : name ∉ rest.all_keys) :
    spec_serialise_body env s =
      if ser then
        match s.encoded_field env, spec_serialise_body env rest with
        | some e, some r => some (e ++ r)
        | _, _ => none
      else spec_serialise_body env rest := by
  have hfilter : rest.all_keys.filter s.should_serialise =
      rest.all_keys.filter rest.should_serialise := by
    apply List.filter_congr
    intro k hk
    have hne : k ≠ name := fun h => hnd (h ▸ hk)
    exact (hrest k hne).1
  have hconcat : ∀ keys : List String, (∀ k ∈ keys, k ∈ rest.all_keys) →
      concat_elements (s.encoded_element env) keys =
        concat_elements (rest.encoded_element env) keys := by
    intro keys hsub
    apply concat_elements_congr
    intro k hk
    have hne : k ≠ name := fun h => hnd (h ▸ hsub k hk)
    simp only [Struct.encoded_element, (hrest k hne).2]
  have hsub : ∀ k ∈ rest.all_keys.filter rest.should_serialise, k ∈ rest.all_keys :=
    fun k hk => (List.mem_filter.1 hk).1
  unfold spec_serialise_body
  rw [hkeys, List.filter_cons, hser, hfilter]
  cases ser with
  | false =>
    simp only [Bool.false_eq_true, if_false]
    exact hconcat _ hsub
  | true =>
    simp only [if_true, concat_elements]
    rw [hconcat _ hsub]
    simp only [Struct.encoded_element, hfrom]

theorem serialise_loop_eq_spec (env : Env) (s : Struct) (h : s.all_keys.Nodup) :
    Struct.serialise_loop env s [] = spec_serialise_body env s := by
  induction s with
  | nil => rfl
  | field name type elems ser rest ih =>
    have hnd := List.nodup_cons.1 h
    have h1 := (serialise_loop_cons env (Struct.field name type elems ser rest)).1
      name type elems ser rest rfl
    have h2 := spec_serialise_body_cons env (Struct.field name type elems ser rest) rest
      name ser rfl (by simp [Struct.should_serialise]) (by simp [Struct.from_key])
      (fun k hk => by simp [Struct.should_serialise, Struct.from_key, Ne.symm hk]) hnd.1
    rw [h1, h2, ih hnd.2]
  | nested name count child ser rest _ ih =>
    have hnd := List.nodup_cons.1 h
    have h1 := (serialise_loop_cons env (Struct.nested name count child ser rest)).2
      name count child ser rest rfl
    have h2 := spec_serialise_body_cons env (Struct.nested name count child ser rest) rest
      name ser rfl (by simp [Struct.should_serialise]) (by simp [Struct.from_key])
      (fun k hk => by simp [Struct.should_serialise, Struct.from_key, Ne.symm hk]) hnd.1
    rw [h1, h2, ih hnd.2]

theorem wrap_object_body (data : List Nat) :
    ((Struct.serialise.wrap_object data).drop 4).dropLast = data := by
  rw [wrap_object_eq]
  simp

/-- C11: for a struct with distinct field names, the bytes of serialise
between the four length bytes and the final terminator are the concatenation,
in the order of all_keys, of the encoded elements of the fields for which
should_serialise is true; a field for which it is false contributes no
bytes. -/
theorem serialise_body_in_key_order (env : Env) (s : Struct) (h : s.all_keys.Nodup) :
    s.serialise env = (spec_serialise_body env s).map Struct.serialise.wrap_object ∧
    (∀ out, s.serialise env = some out →
      spec_serialise_body env s = some ((out.drop 4).dropLast)) ∧
    (∀ name type elems rest,
      (Struct.field name type elems false rest).serialise env = rest.serialise env) ∧
    (∀ name count child rest,
      (Struct.nested name count child false rest).serialise env = rest.serialise env) := by
  have h1 : s.serialise env =
      (spec_serialise_body env s).map Struct.serialise.wrap_object := by
    unfold Struct.serialise
    rw [serialise_loop_eq_spec env s h]
  refine ⟨h1, ?_, ?_, ?_⟩
  · intro out hout
    rw [h1] at hout
    cases hb : spec_serialise_body env s with
    | none => simp [hb] at hout
    | some body =>
      simp only [hb, Option.map_some', Option.some.injEq] at hout
      rw [← hout, wrap_object_body]
  · intro name type elems rest
    simp [Struct.serialise, Struct.serialise_loop]
  · intro name count child rest
    simp [Struct.serialise, Struct.serialise_loop]

theorem serialise_body_in_key_order_witness :
    spec_serialise_body sample_env sample_struct =
      some ((((sample_struct.serialise sample_env).getD []).drop 4).dropLast) ∧
    (sample_struct.all_keys.filter sample_struct.should_serialise).length = 8 :=
  ⟨(serialise_body_in_key_order sample_env sample_struct (by decide)).2.1 _ (by decide),
   by decide⟩

/-! ## The encoding of single elements -/

theorem push_int_bytes32 (result : List Nat) (name : String) (type raw : Nat)
    (v : Int) (hv : of_bits .int32 raw = v) :
    Struct.serialise.push_int result name type .int32 raw =
      result ++ [type] ++ name.data.map Struct.serialise.byte_of ++ [0]
        ++ twos_complement_le 4 v := by
  subst hv
  simp only [Struct.serialise.push_int, Struct.serialise.push_name, twos_complement_le, sizeof,
    to_bits, reduceCtorEq, if_false, List.range_succ, List.range_zero, List.nil_append,
    List.map_cons, List.map_nil, List.cons_append, List.map_append, Nat.reduceMul,
    Nat.reducePow, Int.reducePow, List.append_assoc, List.append_cancel_left_eq,
    List.cons.injEq, and_true]
  refine ⟨trivial, trivial, ?_, ?_, ?_, ?_⟩ <;> omega

theorem push_int_bytes64 (result : List Nat) (name : String) (type raw : Nat)
    (v : Int) (hv : of_bits .int64 raw = v) :
    Struct.serialise.push_int result name type .int64 raw =
      result ++ [type] ++ name.data.map Struct.serialise.byte_of ++ [0]
        ++ twos_complement_le 8 v := by
  subst hv
  simp only [Struct.serialise.push_int, Struct.serialise.push_name, twos_complement_le, sizeof,
    to_bits, reduceCtorEq, if_false, List.range_succ, List.range_zero, List.nil_append,
    List.map_cons, List.map_nil, List.cons_append, List.map_append, Nat.reduceMul,
    Nat.reducePow, Int.reducePow, List.append_assoc, List.append_cancel_left_eq,
    List.cons.injEq, and_true]
  refine ⟨trivial, trivial, ?_, ?_, ?_, ?_, ?_, ?_, ?_, ?_⟩ <;> omega

/-- The element appended for a single-element field read as int32. -/
theorem element_int32 (env : Env) (result : List Nat) (k : String) (T : TypeId) (raw : Nat)
    (ser : Bool) (hT : T = .int8 ∨ T = .uint8 ∨ T = .int16 ∨ T = .uint16 ∨ T = .int32)
    (hr : raw < 2 ^ (8 * sizeof T)) :
    Struct.serialise.element env result (.field k T [.bits raw] ser .nil) k (typeid T) 1 none =
      some (result ++ [0x10] ++ k.data.map Struct.serialise.byte_of ++ [0]
        ++ twos_complement_le 4 (of_bits T raw)) := by
  have hcast : ∀ S : TypeId, S ∈ ForAllInts → sizeof S < sizeof TypeId.int32 →
      raw < 2 ^ (8 * sizeof S) →
      of_bits .int32 (static_cast .int32 S raw) = of_bits S raw :=
    fun S hS hw hr2 => static_cast_widen S .int32 raw hS (by decide) hw (Or.inr rfl) hr2
  rcases hT with rfl | rfl | rfl | rfl | rfl
  · rw [← push_int_bytes32 result k 0x10 _ _ (hcast .int8 (by decide) (by decide) hr)]
    simp [Struct.serialise.element, Struct.serialise.append, Reflection.get, Struct.type_of,
      Struct.get, Enum.name, Env.entry, isEmpty_empty, std_is_integral, sizeof,
      TypeInfo.is_integral, TypeInfo.size, TypeInfo.is_signed, std_is_signed, ForAllInts,
      ForAllFloats, Reflection.map_ints, Value.raw]
  · rw [← push_int_bytes32 result k 0x10 _ _ (hcast .uint8 (by decide) (by decide) hr)]
    simp [Struct.serialise.element, Struct.serialise.append, Reflection.get, Struct.type_of,
      Struct.get, Enum.name, Env.entry, isEmpty_empty, std_is_integral, sizeof,
      TypeInfo.is_integral, TypeInfo.size, TypeInfo.is_signed, std_is_signed, ForAllInts,
      ForAllFloats, Reflection.map_ints, Value.raw]
  · rw [← push_int_bytes32 result k 0x10 _ _ (hcast .int16 (by decide) (by decide) hr)]
    simp [Struct.serialise.element, Struct.serialise.append, Reflection.get, Struct.type_of,
      Struct.get, Enum.name, Env.entry, isEmpty_empty, std_is_integral, sizeof,
      TypeInfo.is_integral, TypeInfo.size, TypeInfo.is_signed, std_is_signed, ForAllInts,
      ForAllFloats, Reflection.map_ints, Value.raw]
  · rw [← push_int_bytes32 result k 0x10 _ _ (hcast .uint16 (by decide) (by decide) hr)]
    simp [Struct.serialise.element, Struct.serialise.append, Reflection.get, Struct.type_of,
      Struct.get, Enum.name, Env.entry, isEmpty_empty, std_is_integral, sizeof,
      TypeInfo.is_integral, TypeInfo.size, TypeInfo.is_signed, std_is_signed, ForAllInts,
      ForAllFloats, Reflection.map_ints, Value.raw]
  · rw [← push_int_bytes32 result k 0x10 raw _ rfl]
    simp [Struct.serialise.element, Struct.serialise.append, Reflection.get, Struct.type_of,
      Struct.get, Enum.name, Env.entry, isEmpty_empty, Value.raw]

/-- The element appended for a single-element field read as int64. -/
theorem element_int64 (env : Env) (result : List Nat) (k : String) (T : TypeId) (raw : Nat)
    (ser : Bool) (hT : T = .uint32 ∨ T = .int64)
    (hr : raw < 2 ^ (8 * sizeof T)) :
    Struct.serialise.element env result (.field k T [.bits raw] ser .nil) k (typeid T) 1 none =
      some (result ++ [0x12] ++ k.data.map Struct.serialise.byte_of ++ [0]
        ++ twos_complement_le 8 (of_bits T raw)) := by
  rcases hT with rfl | rfl
  · rw [← push_int_bytes64 result k 0x12 _ _
      (static_cast_widen .uint32 .int64 raw (by decide) (by decide) (by decide)
        (Or.inl rfl) hr)]
    simp [Struct.serialise.element, Struct.serialise.append, Reflection.get, Struct.type_of,
      Struct.get, Enum.name, Env.entry, isEmpty_empty, std_is_integral, sizeof,
      TypeInfo.is_integral, TypeInfo.size, TypeInfo.is_signed, std_is_signed, ForAllInts,
      ForAllFloats, Reflection.map_ints, Value.raw]
  · rw [← push_int_bytes64 result k 0x12 raw _ rfl]
    simp [Struct.serialise.element, Struct.serialise.append, Reflection.get, Struct.type_of,
      Struct.get, Enum.name, Env.entry, isEmpty_empty, std_is_integral, sizeof,
      TypeInfo.is_integral, TypeInfo.size, TypeInfo.is_signed, std_is_signed, ForAllInts,
      ForAllFloats, Reflection.map_ints, Value.raw]

/-- The element appended for a single-element bool field. -/
theorem element_bool (env : Env) (result : List Nat) (k : String) (b : Bool) (ser : Bool) :
    Struct.serialise.element env result (.field k .bool [.bits (if b then 1 else 0)] ser .nil)
        k (typeid .bool) 1 none =
      some (result ++ [0x08] ++ k.data.map Struct.serialise.byte_of ++ [0]
        ++ [if b then 1 else 0]) := by
  cases b <;>
  simp [Struct.serialise.element, Struct.serialise.append, Reflection.get_value,
    Reflection.get, Struct.type_of, Struct.get, Value.raw, Struct.serialise.push_name]

/-- C12: for a serialisable single-element field named k, serialise appends:
for a bool field the byte 0x08, k, a 0 byte and one byte that is 1 for true
and 0 for false; for a field of type int8_t, uint8_t, int16_t, uint16_t or
int32_t holding v the byte 0x10, k, 0 and the 4-byte little-endian two-s
complement encoding of v; for a field of type uint32_t or int64_t holding v
the byte 0x12, k, 0 and the 8-byte encoding of v. -/
theorem single_element_encoding :
    (∀ (env : Env) (k : String) (b : Bool) (rest : Struct) (result : List Nat),
      Struct.serialise_loop env
          (.field k .bool [.bits (if b then 1 else 0)] true rest) result =
        Struct.serialise_loop env rest
          (result ++ [0x08] ++ k.data.map Struct.serialise.byte_of ++ [0]
            ++ [if b then 1 else 0])) ∧
    (∀ (env : Env) (k : String) (T : TypeId) (raw : Nat) (rest : Struct)
        (result : List Nat),
      T = .int8 ∨ T = .uint8 ∨ T = .int16 ∨ T = .uint16 ∨ T = .int32 →
      raw < 2 ^ (8 * sizeof T) →
      Struct.serialise_loop env (.field k T [.bits raw] true rest) result =
        Struct.serialise_loop env rest
          (result ++ [0x10] ++ k.data.map Struct.serialise.byte_of ++ [0]
            ++ twos_complement_le 4 (of_bits T raw))) ∧
    (∀ (env : Env) (k : String) (T : TypeId) (raw : Nat) (rest : Struct)
        (result : List Nat),
      T = .uint32 ∨ T = .int64 →
      raw < 2 ^ (8 * sizeof T) →
      Struct.serialise_loop env (.field k T [.bits raw] true rest) result =
        Struct.serialise_loop env rest
          (result ++ [0x12] ++ k.data.map Struct.serialise.byte_of ++ [0]
            ++ twos_complement_le 8 (of_bits T raw))) := by
  refine ⟨?_, ?_, ?_⟩
  · intro env k b rest result
    simp only [Struct.serialise_loop, Bool.not_true, Bool.false_eq_true, if_false,
      List.length_singleton, element_bool env result k b true]
  · intro env k T raw rest result hT hr
    simp only [Struct.serialise_loop, Bool.not_true, Bool.false_eq_true, if_false,
      List.length_singleton, element_int32 env result k T raw true hT hr]
  · intro env k T raw rest result hT hr
    simp only [Struct.serialise_loop, Bool.not_true, Bool.false_eq_true, if_false,
      List.length_singleton, element_int64 env result k T raw true hT hr]

theorem single_element_encoding_witness :
    Struct.serialise_loop sample_env (.field "i8" .int8 [.bits 251] true .nil) [] =
      some ([0x10] ++ "i8".data.map Struct.serialise.byte_of ++ [0]
        ++ twos_complement_le 4 (of_bits .int8 251)) ∧
    twos_complement_le 4 (of_bits .int8 251) = [251, 255, 255, 255] ∧
    of_bits .int8 251 = -5 :=
  ⟨single_element_encoding.2.1 sample_env "i8" .int8 251 .nil [] (Or.inl rfl) (by decide),
   by decide, by decide⟩

/-! ## Enum, 64-bit and floating-point fields in the serialiser -/

/-- C13: for a field whose type is a registered enum, serialise appends the
string element of the name of ordinal 0, whatever ordinal the field holds,
where the specification has the name of the current ordinal. -/
theorem enum_serialised_as_first_name (env : Env) (k : String) (id : Nat) (v : Value)
    (rest : Struct) (result : List Nat)
    (hreg : Enum.name env (typeid (.other id)) ≠ "") :
    Struct.serialise_loop env (.field k (.other id) [v] true rest) result =
      Struct.serialise_loop env rest
        (Struct.serialise.push_string result k (Enum.to_string env (typeid (.other id)) 0)) := by
  have hemp : (Enum.name env (typeid (.other id))).isEmpty = false :=
    (isEmpty_eq_false_iff _).2 hreg
  simp [Struct.serialise_loop, Struct.serialise.element, Struct.serialise.append, hemp]

theorem enum_serialised_as_first_name_witness :
    Struct.serialise_loop sample_env (.field "mode" (.other 7) [.bits 1] true .nil) [] =
      some (Struct.serialise.push_string [] "mode" "Off") ∧
    Enum.to_string sample_env (typeid (.other 7)) 1 = "Low" ∧
    Struct.serialise.push_string [] "mode" "Off" =
      [2, 109, 111, 100, 101, 0, 4, 0, 0, 0, 79, 102, 102, 0] :=
  ⟨enum_serialised_as_first_name sample_env "mode" 7 (.bits 1) .nil [] (by decide),
   by decide, by decide⟩

/-- C14: a serialisable field of type uint64_t fails the reads as int32_t,
int64_t and double and is no nested struct, so serialise reaches the closing
assert(false), where the specification has an int64 element. -/
theorem uint64_reaches_assert :
    (∀ (env : Env) (k : String) (v : Value) (rest : Struct) (result : List Nat),
      Struct.serialise_loop env (.field k .uint64 [v] true rest) result = none) ∧
    (∀ (env : Env) (k : String) (v : Value) (rest : Struct),
      (Struct.field k .uint64 [v] true rest).serialise env = none) := by
  have h : ∀ (env : Env) (k : String) (v : Value) (rest : Struct) (result : List Nat),
      Struct.serialise_loop env (.field k .uint64 [v] true rest) result = none := by
    intro env k v rest result
    simp [Struct.serialise_loop, Struct.serialise.element, Struct.serialise.append,
      Reflection.get, Struct.type_of, Struct.get, Enum.name, Env.entry, isEmpty_empty,
      std_is_integral, sizeof, TypeInfo.is_integral, TypeInfo.size, TypeInfo.is_signed,
      std_is_signed, ForAllInts, ForAllFloats, std_is_floating_point,
      TypeInfo.is_floating_point]
  refine ⟨h, ?_⟩
  intro env k v rest
  simp [Struct.serialise, h]

/-- C15: a serialisable single-element double field passes the read as double
and nothing is appended for it: the output is that of the same struct with
the field not serialisable, where the specification has a float64 element. -/
theorem double_appends_nothing :
    (∀ (env : Env) (k : String) (v : Value) (rest : Struct),
      (Struct.field k .double [v] true rest).serialise env =
        (Struct.field k .double [v] false rest).serialise env) ∧
    (Struct.field "wide" .double [.bits 0] true .nil).serialise sample_env =
      some [5, 0, 0, 0, 0] := by
  refine ⟨?_, by decide⟩
  intro env k v rest
  simp [Struct.serialise, Struct.serialise_loop, Struct.serialise.element,
    Struct.serialise.append, Reflection.get, Struct.type_of, Struct.get, Enum.name, Env.entry,
    isEmpty_empty, std_is_integral, sizeof, TypeInfo.is_integral, TypeInfo.size,
    TypeInfo.is_signed, std_is_signed, ForAllInts, ForAllFloats, std_is_floating_point,
    TypeInfo.is_floating_point]

/-! ## Arrays and nested structs in the serialiser -/

/-- Reading element c of an array field of a primitive type is reading the
only element of a one-element field that holds that element. -/
theorem get_array_element (env : Env) (T' T : TypeId) (key k2 : String)
    (elems : List Value) (ser : Bool) (value : Value) (c : Nat)
    (hname : Enum.name env (typeid T) = "") :
    Reflection.get env T' (.field key T elems ser .nil) key value c =
      Reflection.get env T' (.field k2 T [elems.getD c (.bits 0)] true .nil) k2 value 0 := by
  simp [Reflection.get, Struct.type_of, Struct.get, hname, isEmpty_empty]

theorem append_array_element (env : Env) (T : TypeId) (key k2 : String)
    (elems : List Value) (ser : Bool) (array : List Nat) (c : Nat)
    (hname : Enum.name env (typeid T) = "") :
    Struct.serialise.append env array (.field key T elems ser .nil) key k2 (typeid T) c none =
      Struct.serialise.append env array (.field k2 T [elems.getD c (.bits 0)] true .nil)
        k2 k2 (typeid T) 0 none := by
  simp only [Struct.serialise.append, Reflection.get_value,
    get_array_element env _ T key k2 elems ser _ c hname]

theorem array_loop_eq (env : Env) (T : TypeId) (key : String) (elems : List Value)
    (ser : Bool) (hname : Enum.name env (typeid T) = "") :
    ∀ (vs : List Value) (first : Nat) (array : List Nat),
      (∀ i, i < vs.length → elems.getD (first + i) (.bits 0) = vs.getD i (.bits 0)) →
      (List.range' first vs.length).foldlM
          (fun array c => Struct.serialise.append env array (.field key T elems ser .nil) key
            (toString c) (typeid T) c none) array =
        Struct.serialise_loop env (array_as_struct T vs first) array := by
  intro vs
  induction vs with
  | nil =>
    intro first array _
    simp [array_as_struct, Struct.serialise_loop]
  | cons v vs ih =>
    intro first array h
    have h0 : elems.getD first (.bits 0) = v := by
      have := h 0 (by simp)
      simpa using this
    have hrest : ∀ i, i < vs.length →
        elems.getD (first + 1 + i) (.bits 0) = vs.getD i (.bits 0) := by
      intro i hi
      have := h (i + 1) (by simp; omega)
      rw [show first + 1 + i = first + (i + 1) by omega, this]
      simp
    simp only [List.length_cons, List.range'_succ, List.foldlM_cons, array_as_struct,
      Struct.serialise_loop, Bool.not_true, Bool.false_eq_true, if_false,
      List.length_singleton, Struct.serialise.element, gt_iff_lt, Nat.lt_irrefl]
    rw [append_array_element env T key (toString first) elems ser array first hname, h0]
    cases Struct.serialise.append env array
        (.field (toString first) T [v] true .nil) (toString first) (toString first)
        (typeid T) 0 none with
    | none => rfl
    | some r => exact ih (first + 1) r hrest

theorem array_document_eq (env : Env) (T : TypeId) (key : String) (elems : List Value)
    (ser : Bool) (hname : Enum.name env (typeid T) = "") :
    Struct.serialise.array_document env (.field key T elems ser .nil) key (typeid T)
        elems.length none =
      (array_as_struct T elems 0).serialise env := by
  unfold Struct.serialise.array_document Struct.serialise
  rw [List.range_eq_range', array_loop_eq env T key elems ser hname elems 0 []
    (fun i _ => by simp)]
  cases Struct.serialise_loop env (array_as_struct T elems 0) [] <;> rfl

theorem array_as_struct_keys (T : TypeId) (vs : List Value) (first : Nat) :
    (array_as_struct T vs first).all_keys =
      (List.range' first vs.length).map (fun c => toString c) := by
  induction vs generalizing first with
  | nil => rfl
  | cons v vs ih =>
    simp [array_as_struct, Struct.all_keys, ih, List.range'_succ]

/-- C16: for a serialisable field named k with more than one element of type
bool or of a fixed-width integer type, serialise appends the byte 0x03, k, a
0 byte and a document equal to serialise of the struct of single-element
serialisable fields of the same type that hold the elements and are named by
their decimal indices in order; for three elements the keys are 0, 1, 2. -/
theorem array_is_embedded_document (env : Env) (k : String) (T : TypeId)
    (elems : List Value) (rest : Struct) (result : List Nat)
    (hT : T = .bool ∨ T ∈ ForAllInts) (hn : 1 < elems.length) :
    Struct.serialise_loop env (.field k T elems true rest) result =
      (match (array_as_struct T elems 0).serialise env with
       | some document =>
         Struct.serialise_loop env rest
           (result ++ [0x03] ++ k.data.map Struct.serialise.byte_of ++ [0] ++ document)
       | none => none) ∧
    (array_as_struct T elems 0).all_keys =
      (List.range elems.length).map (fun c => toString c) ∧
    (∀ a b c : Value, (array_as_struct T [a, b, c] 0).all_keys = ["0", "1", "2"]) := by
  have hname : Enum.name env (typeid T) = "" := by
    rcases hT with h | h
    · exact Enum.name_prim env T (Or.inr (Or.inl h))
    · exact Enum.name_prim env T (Or.inl h)
  refine ⟨?_, ?_, ?_⟩
  · simp only [Struct.serialise_loop, Bool.not_true, Bool.false_eq_true, if_false,
      Struct.serialise.element, gt_iff_lt, hn, if_true,
      array_document_eq env T k elems true hname]
    cases (array_as_struct T elems 0).serialise env <;>
      simp [Struct.serialise.push_name]
  · rw [array_as_struct_keys, List.range_eq_range']
  · intro a b c
    rfl

theorem array_is_embedded_document_witness :
    Struct.serialise_loop sample_env
        (.field "n" .int32 [.bits 5, .bits 6, .bits 7] true .nil) [] =
      (match (array_as_struct .int32 [.bits 5, .bits 6, .bits 7] 0).serialise sample_env with
       | some document =>
         Struct.serialise_loop sample_env .nil
           ([] ++ [0x03] ++ "n".data.map Struct.serialise.byte_of ++ [0] ++ document)
       | none => none) ∧
    (array_as_struct .int32 [.bits 5, .bits 6, .bits 7] 0).serialise sample_env =
      some [26, 0, 0, 0, 16, 48, 0, 5, 0, 0, 0, 16, 49, 0, 6, 0, 0, 0, 16, 50, 0, 7, 0, 0, 0,
        0] :=
  ⟨(array_is_embedded_document sample_env "n" .int32 [.bits 5, .bits 6, .bits 7] .nil []
      (Or.inr (by decide)) (by decide)).1, by decide⟩

/-- C17: for a serialisable single-element nested-struct field named k with
child c, serialise appends the byte 0x03, k, a 0 byte and then the bytes of
serialise of c, length bytes and terminator included. -/
theorem nested_is_child_document (env : Env) (k : String) (c rest : Struct)
    (result : List Nat) :
    Struct.serialise_loop env (.nested k 1 c true rest) result =
      (match c.serialise env with
       | some document =>
         Struct.serialise_loop env rest
           (result ++ [0x03] ++ k.data.map Struct.serialise.byte_of ++ [0] ++ document)
       | none => none) := by
  simp only [Struct.serialise_loop, Bool.not_true, Bool.false_eq_true, if_false,
    Struct.serialise.element, gt_iff_lt, Nat.lt_irrefl, Struct.serialise]
  cases Struct.serialise_loop env c [] <;>
    simp [Struct.serialise.append, Reflection.get, Struct.type_of, Enum.name, Env.entry,
      isEmpty_empty, std_is_integral, sizeof, TypeInfo.is_integral, TypeInfo.size,
      TypeInfo.is_signed, std_is_signed, ForAllInts, ForAllFloats, std_is_floating_point,
      TypeInfo.is_floating_point, Struct.serialise.push_name]

/-! ## The serialisation-shape example -/

theorem shape_struct_not_serialised :
    ¬ ∃ out, shape_struct.serialise sample_env = some out ∧ out.length = 35 := by
  have h : shape_struct.serialise sample_env = none := by decide
  simp [h]

/-- C18: serialise of the struct with flag: bool = true and count: int32 = 42
returns the 23-byte document 17 00 00 00, 08 flag 00 01, 10 count 00 2A 00 00
00, 00, which an independent reader decodes to exactly the boolean flag =
true and the int32 count = 42, in declaration order; with the third field
name: string = x, serialise reaches the closing assert(false), a std::string
field having no encoding. -/
theorem shape_struct_serialise (env : Env) :
    shape_struct_encodable.serialise env =
      some [23, 0, 0, 0, 8, 102, 108, 97, 103, 0, 1, 16, 99, 111, 117, 110, 116, 0, 42, 0, 0,
        0, 0] ∧
    Reader.read_document
        [23, 0, 0, 0, 8, 102, 108, 97, 103, 0, 1, 16, 99, 111, 117, 110, 116, 0, 42, 0, 0,
          0, 0] =
      some [Element.boolean "flag" true, Element.int32 "count" 42] ∧
    shape_struct.serialise env = none := by
  have hflag : ∀ (rest : Struct) (result : List Nat),
      Struct.serialise_loop env (.field "flag" .bool [.bits 1] true rest) result =
        Struct.serialise_loop env rest (result ++ [8, 102, 108, 97, 103, 0, 1]) := by
    intro rest result
    have e := element_bool env result "flag" true true
    have hb : "flag".data.map Struct.serialise.byte_of = [102, 108, 97, 103] := by decide
    simp only [if_true, hb] at e
    simp only [Struct.serialise_loop, Bool.not_true, Bool.false_eq_true, if_false,
      List.length_singleton, e]
    simp
  have hcount : ∀ (rest : Struct) (result : List Nat),
      Struct.serialise_loop env (.field "count" .int32 [.bits 42] true rest) result =
        Struct.serialise_loop env rest
          (result ++ [16, 99, 111, 117, 110, 116, 0, 42, 0, 0, 0]) := by
    intro rest result
    have e := element_int32 env result "count" .int32 42 true (by simp) (by decide)
    have h2 : twos_complement_le 4 (of_bits .int32 42) = [42, 0, 0, 0] := by decide
    have hb : "count".data.map Struct.serialise.byte_of = [99, 111, 117, 110, 116] := by
      decide
    simp only [h2, hb] at e
    simp only [Struct.serialise_loop, Bool.not_true, Bool.false_eq_true, if_false,
      List.length_singleton, e]
    simp
  have hname : ∀ (rest : Struct) (result : List Nat),
      Struct.serialise_loop env (.field "name" .string [.text "x"] true rest) result =
        none := by
    intro rest result
    simp [Struct.serialise_loop, Struct.serialise.element, Struct.serialise.append,
      Reflection.get, Struct.type_of, Struct.get, Enum.name, Env.entry, isEmpty_empty,
      std_is_integral, sizeof, TypeInfo.is_integral, TypeInfo.size, TypeInfo.is_signed,
      std_is_signed, ForAllInts, ForAllFloats, std_is_floating_point,
      TypeInfo.is_floating_point]
  refine ⟨?_, by decide, ?_⟩
  · simp only [shape_struct_encodable, Struct.serialise, hflag, hcount]
    rfl
  · simp only [shape_struct, Struct.serialise, hflag, hcount, hname]
    rfl

/-! ## Claims about description -/

/-- C19: description of a struct with no fields is the text of two braces,
and description of a struct with the single one-element field a of type
uint8_t holding 1 is a: 01 between braces. -/
theorem description_examples (env : Env) (render_float : TypeId → Nat → String) :
    Struct.nil.description env render_float = "\x7b\x7d" ∧
    ∀ ser : Bool,
      (Struct.field "a" .uint8 [.bits 1] ser .nil).description env render_float = "\x7ba: 01\x7d" := by
  refine ⟨rfl, ?_⟩
  intro ser
  have h : Struct.description.append env render_float
      (.field "a" .uint8 [.bits 1] ser .nil) "a" (typeid .uint8) 0 "" = "01" := by
    simp only [Struct.description.append, Struct.description.OutputIntC,
      Reflection.get_value, Reflection.get, Struct.type_of, Struct.get, reduceCtorEq,
      type_info.of.injEq, if_false, if_true, List.getD_cons_zero, Value.raw]
    decide
  have hr : List.range 1 = [0] := rfl
  simp only [Struct.description, Struct.description_loop, Struct.description.entry,
    List.length_singleton, hr, List.map_cons, List.map_nil, h]
  decide

/-- C20: an int8_t element is converted to int16_t before it is written
under std::hex with width 2, so a negative one is written with four digits:
an int8_t holding -1 renders as ffff, where the specification has ff; a
uint8_t holding 255, converted to uint16_t, renders as ff. -/
theorem description_int8_sign_extended (env : Env) (render_float : TypeId → Nat → String) :
    (∀ ser : Bool,
      (Struct.field "a" .int8 [.bits (to_bits .int8 (-1))] ser .nil).description env
        render_float = "\x7ba: ffff\x7d") ∧
    (∀ (k : String) (ser : Bool) (offset : Nat) (elems : List Value),
      Struct.description.append env render_float (.field k .int8 elems ser .nil) k
          (typeid .int8) offset "" =
        Struct.description.setw_fill 2 (Struct.description.hex
          (static_cast .int16 .int8 (elems.getD offset (.bits 0)).raw))) ∧
    Struct.description.hex (static_cast .int16 .int8 (to_bits .int8 (-1))) = "ffff" ∧
    Struct.description.setw_fill 2
      (Struct.description.hex (static_cast .uint16 .uint8 (to_bits .uint8 255))) = "ff" := by
  refine ⟨?_, ?_, by decide, by decide⟩
  · intro ser
    have h : Struct.description.append env render_float
        (.field "a" .int8 [.bits (to_bits .int8 (-1))] ser .nil) "a" (typeid .int8) 0 ""
        = "ffff" := by
      simp only [Struct.description.append, Struct.description.OutputIntC,
        Reflection.get_value, Reflection.get, Struct.type_of, Struct.get, reduceCtorEq,
        type_info.of.injEq, if_false, if_true, List.getD_cons_zero, Value.raw]
      decide
    have hr : List.range 1 = [0] := rfl
    simp only [Struct.description, Struct.description_loop, Struct.description.entry,
      List.length_singleton, hr, List.map_cons, List.map_nil, h]
    decide
  · intro k ser offset elems
    simp only [Struct.description.append, Struct.description.OutputIntC,
      Reflection.get_value, Reflection.get, Struct.type_of, Struct.get, reduceCtorEq,
      type_info.of.injEq, if_false, if_true, sizeof]

/-! ## Hexadecimal rendering -/

theorem hex_digit_value_digitChar (m : Nat) (h : m < 16) :
    hex_digit_value (Nat.digitChar m) = m := by
  interval_cases m <;> decide

theorem toDigitsCore_append (fuel n : Nat) (ds : List Char) :
    Nat.toDigitsCore 16 fuel n ds = Nat.toDigitsCore 16 fuel n [] ++ ds := by
  induction fuel generalizing n ds with
  | zero => simp [Nat.toDigitsCore]
  | succ fuel ih =>
    simp only [Nat.toDigitsCore]
    split_ifs
    · simp
    · rw [ih (n / 16) (Nat.digitChar (n % 16) :: ds), ih (n / 16) [Nat.digitChar (n % 16)]]
      simp

theorem toDigitsCore_length (fuel n k : Nat) (hk : 1 ≤ k) (hn : n < 16 ^ k) (hf : n < fuel) :
    (Nat.toDigitsCore 16 fuel n []).length ≤ k := by
  induction fuel generalizing n k with
  | zero => omega
  | succ fuel ih =>
    simp only [Nat.toDigitsCore]
    split_ifs with h0
    · simpa using hk
    · rw [toDigitsCore_append]
      have hn16 : 16 ≤ n := by
        by_contra hlt
        exact h0 (Nat.div_eq_of_lt (by omega))
      have hk2 : 2 ≤ k := by
        by_contra hlt
        have : k = 1 := by omega
        subst this
        simp at hn
        omega
      have hdiv : n / 16 < 16 ^ (k - 1) := by
        rw [Nat.div_lt_iff_lt_mul (by decide)]
        have : 16 ^ (k - 1) * 16 = 16 ^ k := by
          rw [← pow_succ]
          congr 1
          omega
        omega
      have := ih (n / 16) (k - 1) (by omega) hdiv (by omega)
      simp only [List.length_append, List.length_singleton]
      omega

theorem hex_value_toDigitsCore (fuel n : Nat) (hf : n < fuel) :
    (Nat.toDigitsCore 16 fuel n []).foldl (fun acc c => 16 * acc + hex_digit_value c) 0 = n := by
  induction fuel generalizing n with
  | zero => omega
  | succ fuel ih =>
    simp only [Nat.toDigitsCore]
    split_ifs with h0
    · have hlt : n < 16 := by
        by_contra hge
        have : 0 < n / 16 := Nat.div_pos (by omega) (by decide)
        omega
      simp [Nat.mod_eq_of_lt hlt, hex_digit_value_digitChar n hlt]
    · rw [toDigitsCore_append, List.foldl_append]
      have hn0 : 0 < n := by
        by_contra hle
        have : n = 0 := by omega
        subst this
        simp at h0
      rw [ih (n / 16) (by omega)]
      simp only [List.foldl_cons, List.foldl_nil,
        hex_digit_value_digitChar _ (Nat.mod_lt n (by decide))]
      omega

theorem foldl_hex_zeros (k : Nat) (l : List Char) :
    (List.replicate k '0' ++ l).foldl (fun acc c => 16 * acc + hex_digit_value c) 0 =
      l.foldl (fun acc c => 16 * acc + hex_digit_value c) 0 := by
  induction k with
  | zero => simp
  | succ k ih =>
    rw [List.replicate_succ, List.cons_append, List.foldl_cons]
    have : 16 * 0 + hex_digit_value '0' = 0 := by decide
    rw [this, ih]

/-- A number below 16 ^ width written under std::hex with zero fill and that
width is exactly width digits that denote the number. -/
theorem setw_fill_hex (width n : Nat) (hw : 1 ≤ width) (hn : n < 16 ^ width) :
    (Struct.description.setw_fill width (Struct.description.hex n)).length = width ∧
    hex_value (Struct.description.setw_fill width (Struct.description.hex n)) = n := by
  have hlen : (Nat.toDigits 16 n).length ≤ width :=
    toDigitsCore_length (n + 1) n width hw hn (by omega)
  constructor
  · simp only [Struct.description.setw_fill, Struct.description.hex, String.length_append,
      String.length_mk, List.length_replicate]
    omega
  · simp only [hex_value, Struct.description.setw_fill, Struct.description.hex,
      String.data_append, foldl_hex_zeros]
    exact hex_value_toDigitsCore (n + 1) n (by omega)

/-- What description writes for an element of an integer field other than a
negative int8_t: exactly twice the byte width in hexadecimal digits, which
denote the stored representation. -/
theorem description_int_rendering (env : Env) (render_float : TypeId → Nat → String)
    (k : String) (T : TypeId) (elems : List Value) (ser : Bool) (offset raw : Nat)
    (hT : T ∈ ForAllInts) (hraw : elems.getD offset (.bits 0) = .bits raw)
    (hr : raw < 2 ^ (8 * sizeof T)) (h8 : T ≠ .int8 ∨ raw < 128) :
    (Struct.description.append env render_float (.field k T elems ser .nil) k (typeid T)
      offset "").length = 2 * sizeof T ∧
    hex_value (Struct.description.append env render_float (.field k T elems ser .nil) k
      (typeid T) offset "") = raw := by
  rw [mem_ForAllInts] at hT
  rcases hT with rfl | rfl | rfl | rfl | rfl | rfl | rfl | rfl <;>
  simp only [sizeof, Nat.reduceMul, Nat.reducePow, ne_eq, not_true_eq_false, false_or,
    reduceCtorEq, not_false_eq_true, true_or] at hr h8 <;>
  simp only [Struct.description.append, Struct.description.OutputIntC,
    Reflection.get_value, Reflection.get, Struct.type_of, Struct.get, reduceCtorEq,
    type_info.of.injEq, if_false, if_true, hraw, Value.raw, sizeof, Nat.reduceMul]
  · have hc : static_cast .uint16 .uint8 raw = raw := by
      simp only [static_cast, to_bits, of_bits, sizeof, std_is_signed, reduceCtorEq, if_false,
        Bool.false_and, Bool.false_eq_true, Nat.reducePow, Nat.reduceMul, Int.reducePow]
      omega
    rw [hc]
    exact setw_fill_hex 2 raw (by decide) (by omega)
  · have hc : static_cast .int16 .int8 raw = raw := by
      simp only [static_cast, to_bits, of_bits, sizeof, std_is_signed, reduceCtorEq, if_false,
        Bool.true_and, decide_eq_true_eq, Nat.reducePow, Nat.reduceMul, Nat.reduceSub,
        Int.reducePow]
      omega
    rw [hc]
    exact setw_fill_hex 2 raw (by decide) (by omega)
  · have hc : static_cast .uint16 .uint16 raw = raw := by
      simp only [static_cast, to_bits, of_bits, sizeof, std_is_signed, reduceCtorEq, if_false,
        Bool.false_and, Bool.false_eq_true, Nat.reducePow, Nat.reduceMul, Int.reducePow]
      omega
    rw [hc]
    exact setw_fill_hex 4 raw (by decide) (by omega)
  · have hc : static_cast .int16 .int16 raw = raw := by
      simp only [static_cast, to_bits, of_bits, sizeof, std_is_signed, reduceCtorEq, if_false,
        Bool.true_and, decide_eq_true_eq, Nat.reducePow, Nat.reduceMul, Nat.reduceSub,
        Int.reducePow]
      omega
    rw [hc]
    exact setw_fill_hex 4 raw (by decide) (by omega)
  · have hc : static_cast .uint32 .uint32 raw = raw := by
      simp only [static_cast, to_bits, of_bits, sizeof, std_is_signed, reduceCtorEq, if_false,
        Bool.false_and, Bool.false_eq_true, Nat.reducePow, Nat.reduceMul, Int.reducePow]
      omega
    rw [hc]
    exact setw_fill_hex 8 raw (by decide) (by omega)
  · have hc : static_cast .int32 .int32 raw = raw := by
      simp only [static_cast, to_bits, of_bits, sizeof, std_is_signed, reduceCtorEq, if_false,
        Bool.true_and, decide_eq_true_eq, Nat.reducePow, Nat.reduceMul, Nat.reduceSub,
        Int.reducePow]
      omega
    rw [hc]
    exact setw_fill_hex 8 raw (by decide) (by omega)
  · have hc : static_cast .uint64 .uint64 raw = raw := by
      simp only [static_cast, to_bits, of_bits, sizeof, std_is_signed, reduceCtorEq, if_false,
        Bool.false_and, Bool.false_eq_true, Nat.reducePow, Nat.reduceMul, Int.reducePow]
      omega
    rw [hc]
    exact setw_fill_hex 16 raw (by decide) (by omega)
  · have hc : static_cast .int64 .int64 raw = raw := by
      simp only [static_cast, to_bits, of_bits, sizeof, std_is_signed, reduceCtorEq, if_false,
        Bool.true_and, decide_eq_true_eq, Nat.reducePow, Nat.reduceMul, Nat.reduceSub,
        Int.reducePow]
      omega
    rw [hc]
    exact setw_fill_hex 16 raw (by decide) (by omega)

theorem description_int_rendering_sample :
    (Struct.description.append sample_env (fun _ _ => "")
      (.field "u8" .uint8 [.bits 200] true .nil) "u8" (typeid .uint8) 0 "").length =
        2 * sizeof .uint8 ∧
    hex_value (Struct.description.append sample_env (fun _ _ => "")
      (.field "u8" .uint8 [.bits 200] true .nil) "u8" (typeid .uint8) 0 "") = 200 :=
  description_int_rendering sample_env (fun _ _ => "") "u8" .uint8 [.bits 200] true 0 200
    (by decide) rfl (by decide) (Or.inl (by decide))

/-! ## The structure of a description -/

theorem size_of_bool_is_zero : TypeInfo.size (typeid .bool) ≠ 1 := by
  decide

/-- C22: TypeInfo::size returns 1, 2, 4, 8 for the 8-, 16-, 32- and 64-bit
integer types, signed and unsigned alike, 4 for float, 8 for double and the
pointer width for a C string, and returns 0 for every other type identity,
bool included; TypeInfo::is_signed is true exactly for int8_t, int16_t,
int32_t, int64_t, float and double. -/
theorem type_classification :
    TypeInfo.size (typeid .uint8) = 1 ∧ TypeInfo.size (typeid .int8) = 1 ∧
    TypeInfo.size (typeid .uint16) = 2 ∧ TypeInfo.size (typeid .int16) = 2 ∧
    TypeInfo.size (typeid .uint32) = 4 ∧ TypeInfo.size (typeid .int32) = 4 ∧
    TypeInfo.size (typeid .uint64) = 8 ∧ TypeInfo.size (typeid .int64) = 8 ∧
    TypeInfo.size (typeid .float) = 4 ∧ TypeInfo.size (typeid .double) = 8 ∧
    TypeInfo.size (typeid .cstring) = sizeof_pointer ∧
    (∀ type : type_info,
      type ∉ (ForAllInts ++ ForAllFloats ++ [TypeId.cstring]).map typeid →
      TypeInfo.size type = 0) ∧
    TypeInfo.size (typeid .bool) = 0 ∧
    (∀ type : type_info, TypeInfo.is_signed type = true ↔
      type = typeid .int8 ∨ type = typeid .int16 ∨ type = typeid .int32 ∨
      type = typeid .int64 ∨ type = typeid .float ∨ type = typeid .double) := by
  refine ⟨by decide, by decide, by decide, by decide, by decide, by decide, by decide,
    by decide, by decide, by decide, by decide, ?_, by decide, ?_⟩
  · intro type h
    unfold TypeInfo.size
    have : (ForAllInts ++ ForAllFloats ++ [TypeId.cstring]).find?
        (fun x => type == typeid x) = none := by
      rw [List.find?_eq_none]
      intro x hx hc
      apply h
      simp only [beq_iff_eq] at hc
      rw [hc]
      exact List.mem_map_of_mem _ hx
    rw [this]
  · intro type
    simp only [TypeInfo.is_signed, Bool.or_eq_true, beq_iff_eq]
    tauto

theorem type_classification_witness :
    TypeInfo.size (typeid .string) = 0 ∧ TypeInfo.size type_info.Struct = 0 ∧
    TypeInfo.size (typeid (.other 7)) = 0 :=
  ⟨type_classification.2.2.2.2.2.2.2.2.2.2.2.1 _ (by decide),
   type_classification.2.2.2.2.2.2.2.2.2.2.2.1 _ (by decide),
   type_classification.2.2.2.2.2.2.2.2.2.2.2.1 _ (by decide)⟩

/-! ## Failed writes -/

/-- C23: set with a bool value writes the value into a bool field and then
returns false, so a failed call has changed the struct, where the
specification has failure leave every field as it was; one defect with C5.
A failed set with an int, a string or a C string and a failed fuzzy_set
leave the struct unchanged. -/
theorem set_bool_failure_not_atomic :
    (Reflection.set_bool sample_struct "flag" true).1 = false ∧
    (Reflection.set_bool sample_struct "flag" true).2 ≠ sample_struct ∧
    (sample_struct.get "flag" = [.bits 0] ∧
      (Reflection.set_bool sample_struct "flag" true).2.get "flag" = [.bits 1]) ∧
    (∀ (env : Env) (s : Struct) (name : String) (v : Int),
      (Reflection.set_int env s name v).1 = false → (Reflection.set_int env s name v).2 = s) ∧
    (∀ (env : Env) (s : Struct) (name str : String),
      (Reflection.set_string env s name str).1 = false →
      (Reflection.set_string env s name str).2 = s) ∧
    (∀ (env : Env) (s : Struct) (name str : String),
      (Reflection.set_c_str env s name str).1 = false →
      (Reflection.set_c_str env s name str).2 = s) ∧
    (∀ (env : Env) (s : Struct) (name str : String),
      (Reflection.fuzzy_set env s name str).1 = false →
      (Reflection.fuzzy_set env s name str).2 = s) := by
  have hstring : ∀ (env : Env) (s : Struct) (name str : String),
      (Reflection.set_string env s name str).1 = false →
      (Reflection.set_string env s name str).2 = s := by
    intro env s name str h
    unfold Reflection.set_string at h ⊢
    cases hty : s.type_of name with
    | none => simp
    | some t =>
      simp only [hty] at h ⊢
      split_ifs at h ⊢
      all_goals rfl
  refine ⟨by decide, by decide, by decide, ?_, hstring, ?_, ?_⟩
  · intro env s name v h
    unfold Reflection.set_int at h ⊢
    cases hty : s.type_of name with
    | none => simp
    | some t =>
      simp only [hty] at h ⊢
      split_ifs at h ⊢
      all_goals rfl
  · intro env s name str h
    exact hstring env s name _ h
  · intro env s name str h
    unfold Reflection.fuzzy_set at h ⊢
    cases hty : s.type_of name with
    | none => simp
    | some t =>
      simp only [hty] at h ⊢
      split_ifs at h ⊢
      all_goals rfl

/-! ## The quadrature mouse -/

open Inputs in
theorem xor_cancel (q k : Nat) : q ^^^ (q ^^^ k) = k := by
  rw [← Nat.xor_assoc, Nat.xor_self, Nat.zero_xor]

theorem xor_cancel_right (q k j : Nat) : q ^^^ (q ^^^ k ^^^ j) = k ^^^ j := by
  rw [Nat.xor_assoc, xor_cancel]

open Inputs in
/-- One axis of prepare_step on its own. -/
theorem prepare_step_axis_spec (m : Inputs.QuadratureMouse) (axis : Nat) :
    (index m.axes axis ≠ 0 →
      index (m.prepare_step_axis axis).axes axis =
        (if index m.axes axis > 0 then index m.axes axis - 1 else index m.axes axis + 1) ∧
      index (m.prepare_step_axis axis).primaries axis = index m.primaries axis ^^^ 1 ∧
      index (m.prepare_step_axis axis).primaries axis ^^^
        index (m.prepare_step_axis axis).secondaries axis =
        (if index m.axes axis > 0 then axis ^^^ 1 else axis)) ∧
    (index m.axes axis = 0 → m.prepare_step_axis axis = m) ∧
    (∀ other : Nat, (other = 0 ↔ axis ≠ 0) →
      index (m.prepare_step_axis axis).axes other = index m.axes other ∧
      index (m.prepare_step_axis axis).primaries other = index m.primaries other ∧
      index (m.prepare_step_axis axis).secondaries other = index m.secondaries other) := by
  refine ⟨?_, ?_, ?_⟩
  · intro h
    unfold QuadratureMouse.prepare_step_axis
    simp only [h, if_false]
    by_cases hp : index m.axes axis > 0
    · simp only [hp, if_true]
      by_cases h0 : axis = 0
      · simp [index, assign, h0, xor_cancel]
      · simp [index, assign, h0, xor_cancel, xor_cancel_right]
    · simp only [hp, if_false]
      by_cases h0 : axis = 0
      · simp [index, assign, h0]
      · simp [index, assign, h0, xor_cancel]
  · intro h
    unfold QuadratureMouse.prepare_step_axis
    simp only [h, if_true]
  · intro other ho
    simp only [QuadratureMouse.prepare_step_axis]
    by_cases h0 : axis = 0
    · have h1 : other ≠ 0 := fun h => (ho.1 h) h0
      split_ifs <;> simp [index, assign, h0, h1]
    · have h1 : other = 0 := ho.2 h0
      split_ifs <;> simp [index, assign, h0, h1]

open Inputs in
theorem prepare_step_axis_bits (m : Inputs.QuadratureMouse) (axis : Nat)
    (haxis : axis = 0 ∨ axis = 1) (h : m.channels_are_bits) :
    (m.prepare_step_axis axis).channels_are_bits := by
  obtain ⟨⟨a0, a1⟩, ⟨p0, p1⟩, ⟨s0, s1⟩⟩ := m
  simp only [QuadratureMouse.channels_are_bits] at h
  obtain ⟨hp0, hp1, hs0, hs1⟩ := h
  have hx : ∀ p q : Nat, p ≤ 1 → q ≤ 1 → p ^^^ q ≤ 1 := by
    intro p q hp hq
    interval_cases p <;> interval_cases q <;> decide
  rcases haxis with rfl | rfl <;>
  simp only [QuadratureMouse.prepare_step_axis, QuadratureMouse.channels_are_bits] <;>
  split_ifs <;>
  simp only [index, assign, if_true, if_false, one_ne_zero] <;>
  refine ⟨?_, ?_, ?_, ?_⟩ <;>
  repeat (first | assumption | exact Nat.le_refl 1 | exact Nat.zero_le 1 | apply hx)

open Inputs in
theorem prepare_step_towards_zero (n : Nat) :
    ∀ m : Inputs.QuadratureMouse, (index m.axes 0).natAbs = n →
      index ((QuadratureMouse.prepare_step^[n]) m).axes 0 = 0 := by
  induction n with
  | zero =>
    intro m h
    simpa using h
  | succ n ih =>
    intro m h
    rw [Function.iterate_succ_apply]
    apply ih
    have hne : index m.axes 0 ≠ 0 := by
      intro h0
      rw [h0] at h
      simp at h
    have h1 := ((prepare_step_axis_spec m 0).1 hne).1
    have h2 := ((prepare_step_axis_spec (m.prepare_step_axis 0) 1).2.2 0 (by simp)).1
    unfold QuadratureMouse.prepare_step
    rw [h2, h1]
    split_ifs <;> omega

open Inputs in
/-- C24: prepare_step applies one step per axis. For an axis whose
accumulated movement a is not 0, the movement becomes a - 1 for positive a
and a + 1 for negative a, so its magnitude drops by 1 and its sign does not
flip; the primary bit of the axis is toggled, and afterwards primary XOR
secondary is axis XOR 1 for a positive step and axis for a negative one. For
an axis whose movement is 0 the movement and both bits are unchanged. After
move(x, y) from rest the magnitude of x calls bring axis 0 back to 0, and for
channel arrays that hold bits, as they do from construction on, get_channel
is at most 3. -/
theorem prepare_step_one_step (m : Inputs.QuadratureMouse) (axis : Nat)
    (haxis : axis = 0 ∨ axis = 1) :
    (index m.axes axis ≠ 0 →
      index m.prepare_step.axes axis =
        (if index m.axes axis > 0 then index m.axes axis - 1 else index m.axes axis + 1) ∧
      (index m.prepare_step.axes axis).natAbs + 1 = (index m.axes axis).natAbs ∧
      (0 < index m.axes axis → 0 ≤ index m.prepare_step.axes axis) ∧
      (index m.axes axis < 0 → index m.prepare_step.axes axis ≤ 0) ∧
      index m.prepare_step.primaries axis = index m.primaries axis ^^^ 1 ∧
      index m.prepare_step.primaries axis ^^^ index m.prepare_step.secondaries axis =
        (if index m.axes axis > 0 then axis ^^^ 1 else axis)) ∧
    (index m.axes axis = 0 →
      index m.prepare_step.axes axis = 0 ∧
      index m.prepare_step.primaries axis = index m.primaries axis ∧
      index m.prepare_step.secondaries axis = index m.secondaries axis) ∧
    (∀ x y : Int, m.axes = (0, 0) → -2 ^ 31 ≤ x → x < 2 ^ 31 →
      index ((QuadratureMouse.prepare_step^[x.natAbs]) (m.move x y)).axes 0 = 0) ∧
    (∀ axes : Int × Int, (QuadratureMouse.construct axes).channels_are_bits) ∧
    (m.channels_are_bits →
      (∀ x y : Int, (m.move x y).channels_are_bits) ∧
      m.prepare_step.channels_are_bits ∧
      m.get_channel axis ≤ 3) := by
  have hstep : index m.prepare_step.axes axis =
        index (m.prepare_step_axis axis).axes axis ∧
      index m.prepare_step.primaries axis =
        index (m.prepare_step_axis axis).primaries axis ∧
      index m.prepare_step.secondaries axis =
        index (m.prepare_step_axis axis).secondaries axis := by
    unfold QuadratureMouse.prepare_step
    rcases haxis with rfl | rfl
    · exact (prepare_step_axis_spec (m.prepare_step_axis 0) 1).2.2 0 (by simp)
    · have h0 := (prepare_step_axis_spec m 0).2.2 1 (by simp)
      obtain ⟨⟨a0, a1⟩, ⟨p0, p1⟩, ⟨s0, s1⟩⟩ := m
      simp only [QuadratureMouse.prepare_step_axis, index, assign, if_true, if_false,
        one_ne_zero] at h0 ⊢
      split_ifs <;> simp
  obtain ⟨hs1, hs2, hs3⟩ := hstep
  refine ⟨?_, ?_, ?_, ?_, ?_⟩
  · intro hne
    obtain ⟨h1, h2, h3⟩ := (prepare_step_axis_spec m axis).1 hne
    rw [hs1, hs2, hs3]
    refine ⟨h1, ?_, ?_, ?_, h2, h3⟩
    · rw [h1]
      split_ifs <;> omega
    · intro hpos
      rw [h1, if_pos hpos]
      omega
    · intro hneg
      rw [h1, if_neg (by omega)]
      omega
  · intro h0
    have h := (prepare_step_axis_spec m axis).2.1 h0
    rw [hs1, hs2, hs3, h]
    exact ⟨h0, rfl, rfl⟩
  · intro x y hrest hlo hhi
    apply prepare_step_towards_zero
    have hmove : index (m.move x y).axes 0 = x := by
      simp only [QuadratureMouse.move, hrest, index, assign, if_true, one_ne_zero, if_false,
        wrap_int, Int.reducePow]
      omega
    rw [hmove]
  · intro axes
    simp [QuadratureMouse.construct, QuadratureMouse.channels_are_bits]
  · intro hbits
    refine ⟨fun x y => ?_, ?_, ?_⟩
    · simpa [QuadratureMouse.move, QuadratureMouse.channels_are_bits] using hbits
    · unfold QuadratureMouse.prepare_step
      exact prepare_step_axis_bits _ 1 (Or.inr rfl)
        (prepare_step_axis_bits m 0 (Or.inl rfl) hbits)
    · obtain ⟨hp0, hp1, hq0, hq1⟩ := hbits
      have hb : ∀ p q : Nat, p ≤ 1 → q ≤ 1 → p ||| (q <<< 1) ≤ 3 := by
        intro p q hp hq
        interval_cases p <;> interval_cases q <;> decide
      unfold QuadratureMouse.get_channel
      rcases haxis with rfl | rfl
      · exact hb _ _ hp0 hq0
      · exact hb _ _ hp1 hq1

open Inputs in
theorem prepare_step_one_step_witness :
    index (QuadratureMouse.prepare_step
      ((QuadratureMouse.construct (0, 0)).move 3 (-2))).axes 0 = 2 ∧
    index (QuadratureMouse.prepare_step
      ((QuadratureMouse.construct (0, 0)).move 3 (-2))).axes 1 = -1 ∧
    QuadratureMouse.get_channel (QuadratureMouse.prepare_step
      ((QuadratureMouse.construct (0, 0)).move 3 (-2))) 0 = 1 :=
  ⟨((prepare_step_one_step ((QuadratureMouse.construct (0, 0)).move 3 (-2)) 0
      (Or.inl rfl)).1 (by decide)).1,
   ((prepare_step_one_step ((QuadratureMouse.construct (0, 0)).move 3 (-2)) 1
      (Or.inr rfl)).1 (by decide)).1,
   by decide⟩

/-! ## The Atari cartridge analyser -/

theorem count_where_eq (p : Nat → Bool) (l : List Nat) :
    StaticAnalyser.Atari.count_where p l = l.countP p := by
  have h : ∀ (l : List Nat) (n : Nat),
      l.foldl (fun count address => count + (if p address then 1 else 0)) n =
        n + l.countP p := by
    intro l
    induction l with
    | nil => intro n; simp
    | cons a l ih =>
      intro n
      rw [List.foldl_cons, ih, List.countP_cons]
      split_ifs <;> omega
  unfold StaticAnalyser.Atari.count_where
  rw [h l 0, Nat.zero_add]

theorem countP_lt_iff (p q : Nat → Bool) (hqp : ∀ a, q a = true → p a = true)
    (l : List Nat) :
    l.countP q ≤ l.countP p ∧
    (l.countP q < l.countP p ↔ ∃ a ∈ l, p a = true ∧ q a = false) := by
  induction l with
  | nil => simp
  | cons a l ih =>
    obtain ⟨hle, hiff⟩ := ih
    simp only [List.countP_cons, List.mem_cons, exists_eq_or_imp]
    cases hq : q a with
    | true =>
      have hp := hqp a hq
      simp only [hp, if_true, Bool.true_eq_false, and_false, false_or]
      constructor
      · omega
      · rw [← hiff]
        omega
    | false =>
      cases hp : p a with
      | true =>
        simp only [if_true, Bool.false_eq_true, if_false, and_self, true_or, iff_true]
        omega
      | false =>
        simp only [Bool.false_eq_true, if_false, false_and, false_or]
        constructor
        · omega
        · rw [← hiff]
          omega

open StaticAnalyser StaticAnalyser.Atari in
/-- The choice DeterminePagingFor16kCartridge makes. -/
theorem paging_16k (target : Target) (disassembly : MOS6502.Disassembly) :
    (DeterminePagingFor16kCartridge target disassembly).paging_model =
      if ∃ a ∈ disassembly.internal_stores ++ disassembly.internal_modifies
            ++ disassembly.internal_loads,
          (0x1fe0 ≤ a &&& 0x1fff ∧ a &&& 0x1fff < 0x1ff6) ∨ a &&& 0x1fff = 0x1ffa
      then Atari2600PagingModel.MNetwork else Atari2600PagingModel.Atari16k := by
  have hcount := countP_lt_iff
    (fun address => decide ((address &&& 0x1fff) ≥ 0x1fe0) && decide ((address &&& 0x1fff) < 0x1ffb))
    (fun address => decide ((address &&& 0x1fff) ≥ 0x1ff6) && decide ((address &&& 0x1fff) < 0x1ffa))
    (by
      intro a h
      simp only [Bool.and_eq_true, decide_eq_true_eq, ge_iff_le] at h ⊢
      omega)
    (internal_accesses disassembly)
  have hex : (∃ a ∈ internal_accesses disassembly,
      (decide ((a &&& 0x1fff) ≥ 0x1fe0) && decide ((a &&& 0x1fff) < 0x1ffb)) = true ∧
      (decide ((a &&& 0x1fff) ≥ 0x1ff6) && decide ((a &&& 0x1fff) < 0x1ffa)) = false) ↔
      ∃ a ∈ disassembly.internal_stores ++ disassembly.internal_modifies
            ++ disassembly.internal_loads,
          (0x1fe0 ≤ a &&& 0x1fff ∧ a &&& 0x1fff < 0x1ff6) ∨ a &&& 0x1fff = 0x1ffa := by
    constructor
    · rintro ⟨a, ha, h1, h2⟩
      refine ⟨a, by simpa [internal_accesses] using ha, ?_⟩
      simp only [Bool.and_eq_true, decide_eq_true_eq, ge_iff_le, Bool.and_eq_false_imp,
        decide_eq_false_iff_not] at h1 h2
      by_cases h3 : 0x1ff6 ≤ a &&& 0x1fff
      · have := h2 h3
        omega
      · omega
    · rintro ⟨a, ha, h⟩
      refine ⟨a, by simpa [internal_accesses] using ha, ?_, ?_⟩
      · simp only [Bool.and_eq_true, decide_eq_true_eq, ge_iff_le]
        omega
      · simp only [Bool.and_eq_false_imp, decide_eq_true_eq, decide_eq_false_iff_not,
          ge_iff_le]
        intro h3
        omega
  simp only [DeterminePagingFor16kCartridge, count_where_eq, gt_iff_lt, hcount.2, hex]
  split_ifs <;> rfl

open StaticAnalyser StaticAnalyser.Atari in
/-- C26: DeterminePagingFor16kCartridge selects MNetwork exactly when some
address among the internal stores, modifies and loads, masked with 0x1fff,
lies in [0x1fe0, 0x1ff6) or is 0x1ffa, and Atari16k otherwise; an access in
[0x1ff6, 0x1ffa) does not influence the choice. -/
theorem paging_16k_choice (target : Target) (disassembly : MOS6502.Disassembly) :
    ((DeterminePagingFor16kCartridge target disassembly).paging_model =
        Atari2600PagingModel.MNetwork ↔
      ∃ a ∈ disassembly.internal_stores ++ disassembly.internal_modifies
            ++ disassembly.internal_loads,
          (0x1fe0 ≤ a &&& 0x1fff ∧ a &&& 0x1fff < 0x1ff6) ∨ a &&& 0x1fff = 0x1ffa) ∧
    ((DeterminePagingFor16kCartridge target disassembly).paging_model ≠
        Atari2600PagingModel.MNetwork →
      (DeterminePagingFor16kCartridge target disassembly).paging_model =
        Atari2600PagingModel.Atari16k) ∧
    (∀ a : Nat, 0x1ff6 ≤ a &&& 0x1fff → a &&& 0x1fff < 0x1ffa →
      (DeterminePagingFor16kCartridge target
        { disassembly with internal_stores := a :: disassembly.internal_stores }).paging_model =
      (DeterminePagingFor16kCartridge target disassembly).paging_model) := by
  refine ⟨?_, ?_, ?_⟩
  · rw [paging_16k]
    split_ifs with h
    · exact ⟨fun _ => h, fun _ => rfl⟩
    · exact ⟨fun hc => by simp at hc, fun hc => absurd hc h⟩
  · rw [paging_16k]
    split_ifs with h
    · simp
    · simp
  · intro a hlo hhi
    rw [paging_16k, paging_16k]
    have : (∃ b ∈ (a :: disassembly.internal_stores) ++ disassembly.internal_modifies
            ++ disassembly.internal_loads,
          (0x1fe0 ≤ b &&& 0x1fff ∧ b &&& 0x1fff < 0x1ff6) ∨ b &&& 0x1fff = 0x1ffa) ↔
        (∃ b ∈ disassembly.internal_stores ++ disassembly.internal_modifies
            ++ disassembly.internal_loads,
          (0x1fe0 ≤ b &&& 0x1fff ∧ b &&& 0x1fff < 0x1ff6) ∨ b &&& 0x1fff = 0x1ffa) := by
      constructor
      · rintro ⟨b, hb, h⟩
        simp only [List.cons_append, List.mem_cons] at hb
        rcases hb with rfl | hb
        · omega
        · exact ⟨b, hb, h⟩
      · rintro ⟨b, hb, h⟩
        exact ⟨b, by simp only [List.cons_append, List.mem_cons]; exact Or.inr hb, h⟩
    simp only [this]

open StaticAnalyser StaticAnalyser.Atari in
theorem paging_16k_choice_witness :
    (DeterminePagingFor16kCartridge ⟨[], .None, false⟩ sample_disassembly).paging_model =
      Atari2600PagingModel.MNetwork ∧
    (DeterminePagingFor16kCartridge ⟨[], .None, false⟩
      { sample_disassembly with internal_stores := [0x1ff7] }).paging_model =
      Atari2600PagingModel.Atari16k :=
  ⟨(paging_16k_choice ⟨[], .None, false⟩ sample_disassembly).1.2
      ⟨0x1fe0, by decide, by decide⟩,
   by decide⟩

open StaticAnalyser StaticAnalyser.Atari in
theorem read_in_bounds (data : List Nat) (i : Nat) (h : i < data.length) :
    Atari.read data i = some (data.getD i 0) := by
  simp [Atari.read, List.getD, List.getElem?_eq_getElem h]

open StaticAnalyser StaticAnalyser.Atari in
theorem read_out_of_bounds (data : List Nat) (i : Nat) (h : data.length ≤ i) :
    Atari.read data i = none := by
  simp [Atari.read, List.getElem?_eq_none h]

open StaticAnalyser StaticAnalyser.Atari in
/-- The Super Chip loop on a segment long enough for its reads compares
the bytes at address and address + 128. -/
theorem superchip_loop_eq (data : List Nat) (remaining : Nat) :
    ∀ address : Nat, address + remaining + 128 ≤ data.length →
      superchip_loop data remaining address =
        some (decide (∀ i, i < remaining →
          data.getD (address + i) 0 = data.getD (address + i + 128) 0)) := by
  induction remaining with
  | zero =>
    intro address _
    simp [superchip_loop]
  | succ n ih =>
    intro address h
    rw [superchip_loop, read_in_bounds data address (by omega),
      read_in_bounds data (address + 128) (by omega)]
    by_cases hab : data.getD address 0 = data.getD (address + 128) 0
    · simp only [hab, ne_eq, not_true_eq_false, if_false]
      rw [ih (address + 1) (by omega)]
      congr 1
      apply decide_eq_decide.2
      constructor
      · intro hall i hi
        cases i with
        | zero => simpa using hab
        | succ j =>
          have := hall j (by omega)
          rw [show address + (j + 1) = address + 1 + j by omega]
          exact this
      · intro hall i hi
        have := hall (i + 1) (by omega)
        rw [show address + 1 + i = address + (i + 1) by omega]
        exact this
    · simp only [ne_eq, hab, not_false_eq_true, if_true, Option.some.injEq]
      symm
      apply decide_eq_false
      intro hall
      exact hab (by simpa using hall 0 (by omega))

open StaticAnalyser StaticAnalyser.Atari in
theorem superchip_loop_short (data : List Nat) (h : data.length < 128) :
    superchip_loop data 128 0 = none := by
  by_cases h0 : data.length = 0
  · rw [superchip_loop, read_out_of_bounds data 0 (by omega)]
  · rw [superchip_loop, read_in_bounds data 0 (by omega),
      read_out_of_bounds data (0 + 128) (by omega)]

open StaticAnalyser StaticAnalyser.Atari in
theorem and_then_isSome (a b : Option Bool) (ha : a.isSome = true) (hb : b.isSome = true) :
    (and_then a b).isSome = true := by
  cases a with
  | none => simp at ha
  | some v => cases v <;> simp [and_then, hb]

open StaticAnalyser StaticAnalyser.Atari in
theorem or_else_isSome (a b : Option Bool) (ha : a.isSome = true) (hb : b.isSome = true) :
    (or_else a b).isSome = true := by
  cases a with
  | none => simp at ha
  | some v => cases v <;> simp [or_else, hb]

open StaticAnalyser StaticAnalyser.Atari in
theorem read_is_isSome (data : List Nat) (i v : Nat) (h : i < data.length) :
    (read_is data i v).isSome = true := by
  simp [read_is, read_in_bounds data i h]

open StaticAnalyser StaticAnalyser.Atari in
theorem activision_stack_test_isSome (data : List Nat) (h : data.length = 8192) :
    (activision_stack_test data).isSome = true := by
  unfold activision_stack_test
  repeat first
    | apply and_then_isSome
    | apply or_else_isSome
    | (rw [Option.isSome_map']; apply read_is_isSome; omega)
    | (apply read_is_isSome; omega)

open StaticAnalyser StaticAnalyser.Atari in
theorem paging_switch_keeps (target t : Target) (segment : Segment)
    (disassembly : MOS6502.Disassembly)
    (h : paging_switch target segment disassembly = some t) :
    t.uses_superchip = target.uses_superchip := by
  unfold paging_switch at h
  split_ifs at h
  · unfold DeterminePagingFor8kCartridge at h
    split at h
    · simp at h
    · simp only [Option.some.injEq] at h
      rw [← h]
    · simp only at h
      split_ifs at h <;> simp only [Option.some.injEq] at h <;> rw [← h]
  all_goals
    simp only [Option.some.injEq] at h
    subst h
    first
      | rfl
      | (simp only [DeterminePagingFor16kCartridge]
         split_ifs <;> rfl)

open StaticAnalyser StaticAnalyser.Atari in
theorem paging_switch_isSome (target : Target) (segment : Segment)
    (disassembly : MOS6502.Disassembly) :
    (paging_switch target segment disassembly).isSome = true := by
  unfold paging_switch
  split_ifs with h8
  · unfold DeterminePagingFor8kCartridge
    have := activision_stack_test_isSome segment.data h8
    cases htest : activision_stack_test segment.data with
    | none => simp [htest] at this
    | some b =>
      cases b
      · simp only
        split_ifs <;> rfl
      · rfl
  all_goals rfl

open StaticAnalyser StaticAnalyser.Atari in
theorem size_minus_eq (size k : Nat) (hk : k ≤ size) (hs : size < 2 ^ 64) :
    size_minus size k = size - k := by
  unfold size_minus
  omega

open StaticAnalyser StaticAnalyser.Atari in
theorem size_minus_out (size k : Nat) (hk : size < k) (hk2 : k ≤ 4) (hs : size < 2 ^ 64) :
    size ≤ size_minus size k := by
  unfold size_minus
  omega

open StaticAnalyser StaticAnalyser.Atari in
theorem tigervision_check_spec (target : Target) (segment : Segment)
    (disassembly : MOS6502.Disassembly) :
    (tigervision_check target segment disassembly).uses_superchip = target.uses_superchip ∧
    ((tigervision_check target segment disassembly).paging_model =
        Atari2600PagingModel.CBSRamPlus ↔
      target.paging_model = Atari2600PagingModel.CBSRamPlus) ∧
    ((tigervision_check target segment disassembly).paging_model =
        Atari2600PagingModel.MNetwork ↔
      target.paging_model = Atari2600PagingModel.MNetwork) := by
  simp only [tigervision_check]
  by_cases h1 : target.paging_model = Atari2600PagingModel.None ∧ segment.data.length > 4096
  · by_cases h2 : 0x3f ∈ disassembly.external_stores
    · simp [h1, h2, h1.1]
    · simp [h1, h2]
  · simp [h1]

open StaticAnalyser StaticAnalyser.Atari in
/-- What DeterminePagingForCartridge leaves in uses_superchip when it
completes. -/
theorem determine_paging_superchip (Disassemble : Disassembler) (target t : Target)
    (segment : Segment) (h0 : target.uses_superchip = false)
    (h : DeterminePagingForCartridge Disassemble target segment = some t) :
    (segment.data.length = 2048 → t.uses_superchip = false) ∧
    (t.paging_model = Atari2600PagingModel.CBSRamPlus ∨
      t.paging_model = Atari2600PagingModel.MNetwork → t.uses_superchip = false) ∧
    (segment.data.length ≠ 2048 →
      t.paging_model ≠ Atari2600PagingModel.CBSRamPlus →
      t.paging_model ≠ Atari2600PagingModel.MNetwork →
      (t.uses_superchip = true ↔
        ∀ i, i < 128 → segment.data.getD i 0 = segment.data.getD (i + 128) 0)) := by
  unfold DeterminePagingForCartridge at h
  simp only at h
  by_cases h2k : segment.data.length = 2048
  · simp only [h2k, if_true] at h
    have ht : t.uses_superchip = false := by
      unfold DeterminePagingFor2kCartridge at h
      split at h
      · simp only at h
        split_ifs at h <;> simp only [Option.some.injEq] at h <;> rw [← h] <;> exact h0
      · simp at h
    exact ⟨fun _ => ht, fun _ => ht, fun hne => absurd h2k hne⟩
  · simp only [h2k, if_false] at h
    split at h
    · rename_i b0 b1 b2 b3 hb0 hb1 hb2 hb3
      split_ifs at h with hsmall
      generalize Disassemble (List.drop (segment.data.length - 4096) segment.data)
        address_mapper [uint16_of b0 b1, uint16_of b2 b3] = disassembly at h
      split at h
      · simp at h
      · rename_i t1 hsw
        have hkeep := paging_switch_keeps target t1 segment _ hsw
        split at h
        · simp at h
        · rename_i t2 hsc
          simp only [Option.some.injEq] at h
          obtain ⟨htv1, htv2, htv3⟩ := tigervision_check_spec t2 segment disassembly
          rw [h] at htv1 htv2 htv3
          unfold superchip_check at hsc
          split_ifs at hsc with hmodel
          · rw [superchip_loop_eq segment.data 128 0 (by omega)] at hsc
            simp only [Option.some.injEq] at hsc
            have hm2 : t2.paging_model = t1.paging_model := by rw [← hsc]
            have hu2 : t2.uses_superchip = true ↔ ∀ i, i < 128 →
                segment.data.getD i 0 = segment.data.getD (i + 128) 0 := by
              rw [← hsc]
              simp only [decide_eq_true_eq, Nat.zero_add]
            refine ⟨fun h' => absurd h' h2k, ?_, ?_⟩
            · intro hcm
              rcases hcm with hc | hc
              · exact absurd (hm2 ▸ htv2.1 hc) hmodel.1
              · exact absurd (hm2 ▸ htv3.1 hc) hmodel.2
            · intro _ _ _
              rw [htv1, hu2]
          · simp only [Option.some.injEq] at hsc
            subst hsc
            have hcm : t1.paging_model = Atari2600PagingModel.CBSRamPlus ∨
                t1.paging_model = Atari2600PagingModel.MNetwork := by
              by_contra hc
              exact hmodel ⟨fun h' => hc (Or.inl h'), fun h' => hc (Or.inr h')⟩
            refine ⟨fun h' => absurd h' h2k, fun _ => by rw [htv1, hkeep, h0], ?_⟩
            intro _ hn1 hn2
            rcases hcm with hc | hc
            · exact absurd (htv2.2 hc) hn1
            · exact absurd (htv3.2 hc) hn2
    · simp at h

open StaticAnalyser StaticAnalyser.Atari in
/-- DeterminePagingForCartridge completes on a segment of 2048 bytes or of at
least 4096 bytes. -/
theorem determine_paging_isSome (Disassemble : Disassembler) (target : Target)
    (segment : Segment)
    (hsize : segment.data.length = 2048 ∨ 4096 ≤ segment.data.length)
    (h64 : segment.data.length < 2 ^ 64) :
    (DeterminePagingForCartridge Disassemble target segment).isSome = true := by
  unfold DeterminePagingForCartridge
  simp only
  by_cases h2k : segment.data.length = 2048
  · simp only [h2k, if_true]
    unfold DeterminePagingFor2kCartridge
    rw [read_in_bounds _ 0x7fc (by omega), read_in_bounds _ 0x7fd (by omega),
      read_in_bounds _ 0x7fe (by omega), read_in_bounds _ 0x7ff (by omega)]
    simp only
    split_ifs <;> rfl
  · have h4k : 4096 ≤ segment.data.length := by
      rcases hsize with h | h
      · exact absurd h h2k
      · exact h
    simp only [h2k, if_false]
    rw [size_minus_eq _ 4 (by omega) h64, size_minus_eq _ 3 (by omega) h64,
      size_minus_eq _ 2 (by omega) h64, size_minus_eq _ 1 (by omega) h64,
      read_in_bounds _ _ (by omega), read_in_bounds _ _ (by omega),
      read_in_bounds _ _ (by omega), read_in_bounds _ _ (by omega)]
    simp only [if_neg (show ¬ segment.data.length < 4096 by omega)]
    generalize Disassemble _ _ _ = disassembly
    have hsw := paging_switch_isSome target segment disassembly
    cases hp : paging_switch target segment disassembly with
    | none => simp [hp] at hsw
    | some t1 =>
      simp only
      unfold superchip_check
      split_ifs
      · rw [superchip_loop_eq segment.data 128 0 (by omega)]
        rfl
      · rfl

open StaticAnalyser StaticAnalyser.Atari in
/-- DeterminePagingForCartridge reads out of bounds on a segment of fewer than
4096 bytes that is not of 2048 bytes. -/
theorem determine_paging_out_of_bounds (Disassemble : Disassembler) (target : Target)
    (segment : Segment)
    (h2k : segment.data.length ≠ 2048) (hsmall : segment.data.length < 4096) :
    DeterminePagingForCartridge Disassemble target segment = none := by
  unfold DeterminePagingForCartridge
  simp only [h2k, if_false, hsmall, if_true]
  split <;> rfl

theorem sample_rom_length : sample_rom.length = 4096 := List.length_replicate _ _

/-! ## Reads of the segment data -/

open StaticAnalyser StaticAnalyser.Atari in
/-- Super Chip detection where every read is in bounds: for media whose first
cartridge has one segment of 2048 bytes or of at least 4096 bytes, AddTargets
appends one target; when the size is not 2048 and the chosen paging model is
neither CBSRamPlus nor MNetwork, its uses_superchip is true exactly when
data[i] = data[i+128] for every i below 128; for a 2048-byte segment and for
the models CBSRamPlus and MNetwork uses_superchip stays false. -/
theorem superchip_detection_in_bounds (Disassemble : Disassembler) (media : Media)
    (destination : List Target) (front : Cartridge) (rest : List Cartridge)
    (segment : Segment)
    (hmedia : media.cartridges = front :: rest)
    (hsegments : front.segments = [segment])
    (hsize : segment.data.length = 2048 ∨ 4096 ≤ segment.data.length)
    (h64 : segment.data.length < 2 ^ 64) :
    ∃ target : Target,
      AddTargets Disassemble media destination = some (destination ++ [target]) ∧
      (segment.data.length ≠ 2048 →
        target.paging_model ≠ Atari2600PagingModel.CBSRamPlus →
        target.paging_model ≠ Atari2600PagingModel.MNetwork →
        (target.uses_superchip = true ↔
          ∀ i, i < 128 → segment.data.getD i 0 = segment.data.getD (i + 128) 0)) ∧
      (segment.data.length = 2048 ∨
        target.paging_model = Atari2600PagingModel.CBSRamPlus ∨
        target.paging_model = Atari2600PagingModel.MNetwork →
        target.uses_superchip = false) := by
  have hsome := determine_paging_isSome Disassemble
    { cartridges := media.cartridges, paging_model := Atari2600PagingModel.None,
      uses_superchip := false } segment hsize h64
  cases hd : DeterminePagingForCartridge Disassemble
    { cartridges := media.cartridges, paging_model := Atari2600PagingModel.None,
      uses_superchip := false } segment with
  | none => rw [hd] at hsome; exact absurd hsome (by decide)
  | some t =>
    have hspec := determine_paging_superchip Disassemble _ t segment rfl hd
    refine ⟨t, ?_, hspec.2.2, ?_⟩
    · have hd2 := hd
      rw [hmedia] at hd2
      unfold AddTargets
      simp only [hmedia, hsegments, hd2]
    · intro h
      rcases h with h | h
      · exact hspec.1 h
      · exact hspec.2.1 h

open StaticAnalyser StaticAnalyser.Atari in
/-- The sample cartridge of 4096 zero bytes is analysed to the end. -/
theorem superchip_detection_in_bounds_sample :
    ∃ target : Target,
      AddTargets sample_disassembler (media_of sample_rom) [] = some ([] ++ [target]) ∧
      ((Segment.mk sample_rom).data.length ≠ 2048 →
        target.paging_model ≠ Atari2600PagingModel.CBSRamPlus →
        target.paging_model ≠ Atari2600PagingModel.MNetwork →
        (target.uses_superchip = true ↔
          ∀ i, i < 128 →
            (Segment.mk sample_rom).data.getD i 0 =
              (Segment.mk sample_rom).data.getD (i + 128) 0)) ∧
      ((Segment.mk sample_rom).data.length = 2048 ∨
        target.paging_model = Atari2600PagingModel.CBSRamPlus ∨
        target.paging_model = Atari2600PagingModel.MNetwork →
        target.uses_superchip = false) :=
  superchip_detection_in_bounds sample_disassembler (media_of sample_rom) []
    (Cartridge.mk [Segment.mk sample_rom]) [] (Segment.mk sample_rom) rfl rfl
    (Or.inr (Nat.le_of_eq sample_rom_length.symm))
    (by show sample_rom.length < 2 ^ 64; rw [sample_rom_length]; decide)

open StaticAnalyser StaticAnalyser.Atari in
/-- C27: on a cartridge of one segment of 100 bytes AddTargets reads
segment.data out of bounds (the slice of the final 4096 bytes starts before the
data), and on an empty segment the read at size - 4 is already out of bounds;
this holds for every disassembler. -/
theorem add_targets_reads_out_of_bounds (Disassemble : Disassembler) :
    AddTargets Disassemble (media_of (List.replicate 100 0)) [] = none ∧
    AddTargets Disassemble (media_of []) [] = none := by
  constructor
  · unfold AddTargets
    simp only [media_of]
    rw [determine_paging_out_of_bounds Disassemble _ (Segment.mk (List.replicate 100 0))
      (by simp only [List.length_replicate]; decide)
      (by simp only [List.length_replicate]; decide)]
  · unfold AddTargets
    simp only [media_of]
    rw [determine_paging_out_of_bounds Disassemble _ (Segment.mk [])
      (by simp only [List.length_nil]; decide) (by simp only [List.length_nil]; decide)]


/-! ## Super Chip detection on a small cartridge -/

end CLK
